import Mathlib

/-! # Kernel-extension resolver and module cache of lldb

A shallow embedding of `source/Plugins/Platform/MacOSX/PlatformDarwinKernel.cpp`
and of the cache declared in `source/Utility/ModuleCache.h`.

Stateful C++ code is rendered with explicit state passing: a function that
pushes onto a `std::vector` passed by reference takes the vector and returns
the extended vector.  Classes whose implementation lies outside the embedded
files (`FileSpec`, `Module`, `ModuleList`, `Host`, `CFCBundle`) appear as the
fields of the structure `Host`, so every theorem holds for all behaviours of
these collaborators.
-/

/-! ## Common types -/

/-- The size of the stack buffers `char pathbuf[PATH_MAX]`. -/
abbrev PATH_MAX : Nat := 1024

/-- The C library call `snprintf (buf, size, ...)` as used in the sources: the
formatted text `s` is stored truncated to `size - 1` characters. -/
def snprintf (size : Nat) (s : String) : String :=
  String.mk (s.data.take (size - 1))

/-- The type `lldb_private::ConstString`: a uniqued string, compared by content. -/
abbrev ConstString := String

/-- The order `ConstString::operator<` used by the `std::multimap` keyed by
`ConstString`: lexicographic comparison of the characters. -/
def ConstString.lt (a b : ConstString) : Bool :=
  decide (a.data < b.data)

/-- The type `lldb_private::UUID`: a build fingerprint, encoded as a number. -/
abbrev UUID := Nat

/-- The enumeration `lldb_private::LazyBool`. -/
inductive LazyBool where
  | eLazyBoolCalculate
  | eLazyBoolNo
  | eLazyBoolYes
  deriving DecidableEq, Repr

/-- The enumeration `FileSpec::FileType`. -/
inductive FileType where
  | eFileTypeInvalid
  | eFileTypeUnknown
  | eFileTypeDirectory
  | eFileTypePipe
  | eFileTypeRegular
  | eFileTypeSocket
  | eFileTypeSymbolicLink
  | eFileTypeOther
  deriving DecidableEq, Repr

/-- The class `lldb_private::Error`: a default-constructed `Error` is a
success, any other value carries a description of the failure. -/
inductive Error where
  | success
  | failure (description : String)
  deriving DecidableEq, Repr

/-- The method `Error::Success`. -/
def Error.Success : Error → Bool
  | .success => true
  | .failure _ => false

/-- The method `Error::Fail`. -/
def Error.Fail (e : Error) : Bool := !e.Success

/-- The class `lldb_private::ModuleSpec`, reduced to the two members the
embedded code reads and writes: the file and the UUID. -/
structure ModuleSpec (F : Type) where
  /-- The member returned by `GetFileSpec`. -/
  file : F
  /-- The member returned by `GetUUID`. -/
  uuid : UUID

/-- The collaborators of `PlatformDarwinKernel` whose code is outside the
embedded files.  `F` is the type `FileSpec`, `M` the type of a loaded
`Module` (the pointee of a non-null `ModuleSP`). -/
structure Host (F M : Type) where
  /-- The constructor `FileSpec (path, resolve_path)`. -/
  mkFileSpec : String → Bool → F
  /-- The call `FileSpec::GetPath (buf, PATH_MAX)`: `none` when it returns 0,
  otherwise the text left in the buffer. -/
  GetPath : F → Option String
  /-- The method `FileSpec::Exists`. -/
  Exists : F → Bool
  /-- The method `FileSpec::GetFileType`. -/
  GetFileType : F → FileType
  /-- The method `FileSpec::GetFileNameExtension`. -/
  GetFileNameExtension : F → ConstString
  /-- The text of `FileSpec::GetDirectory ().GetCString ()`. -/
  GetDirectory : F → String
  /-- The text of `FileSpec::GetFilename ().GetCString ()`. -/
  GetFilename : F → String
  /-- The entries that `FileSpec::EnumerateDirectory (path, ...)` visits, in
  the order it visits them, each with the type it reports (before the
  filtering by `find_directories`, `find_files` and `find_other`). -/
  ReadDirectory : String → List (FileType × F)
  /-- The function `Host::ResolveExecutableInBundle`, which rewrites its
  argument in place: the result is the rewritten file. -/
  ResolveExecutableInBundle : F → F
  /-- The function `ModuleList::GetSharedModule (spec, module_sp, NULL, NULL, NULL)`:
  the returned error and the module left in `module_sp`. -/
  ModuleList_GetSharedModule : ModuleSpec F → Error × Option M
  /-- Whether `Module::GetObjectFile` returns a non-null object file. -/
  GetObjectFile : M → Bool
  /-- The method `Module::GetUUID`: the actual fingerprint of a loaded module. -/
  GetUUID : M → UUID
  /-- The bundle identifier read by `CFCBundle bundle (path); bundle.GetIdentifier ()`
  and converted by `CFStringGetCString`: `none` when there is no identifier,
  it is not a string, or the conversion fails. -/
  GetIdentifier : String → Option String
  /-- The method `PlatformDarwin::GetDeveloperDirectory`: `none` for `NULL`. -/
  GetDeveloperDirectory : Option String

/-! ## The multimap `m_name_to_kext_path_map` -/

/-- The type `std::multimap<ConstString, FileSpec>`, held as the sequence of
its entries in iteration order (ascending keys, equal keys in insertion order). -/
abbrev BundleIDToKextMap (F : Type) := List (ConstString × F)

/-- The method `std::multimap::insert`: the new entry goes to the upper bound
of its key, after every entry whose key is not greater. -/
def BundleIDToKextMap.insert {F : Type} (m : BundleIDToKextMap F) (e : ConstString × F) :
    BundleIDToKextMap F :=
  m.takeWhile (fun x => !ConstString.lt e.1 x.1) ++ e :: m.dropWhile (fun x => !ConstString.lt e.1 x.1)

/-- The method `std::multimap::count`. -/
def BundleIDToKextMap.count {F : Type} (m : BundleIDToKextMap F) (k : ConstString) : Nat :=
  (m.filter (fun x => decide (x.1 = k))).length

/-- The invariant of the multimap: the keys ascend along the iteration order. -/
def BundleIDToKextMap.KeysAscend {F : Type} (m : BundleIDToKextMap F) : Prop :=
  m.Pairwise (fun x y => x.1 ≤ y.1)

namespace PlatformDarwinKernel

variable {F M : Type}

/-! ## Search roots: `SearchForKexts` and its helpers -/

/-- The fallback `"/Applications/Xcode.app/Contents/Developer"` taken when
`GetDeveloperDirectory ()` returns `NULL`. -/
def developer_dir (host : Host F M) : String :=
  match host.GetDeveloperDirectory with
  | some d => d
  | none => "/Applications/Xcode.app/Contents/Developer"

/-- The buffer `pathbuf` filled in `GetiOSSDKDirectoriesToSearch`. -/
def iOSSDKPath (host : Host F M) : String :=
  snprintf PATH_MAX (developer_dir host ++ "/Platforms/iPhoneOS.platform/Developer/SDKs")

/-- The buffer `pathbuf` filled in `GetMacSDKDirectoriesToSearch`. -/
def MacSDKPath (host : Host F M) : String :=
  snprintf PATH_MAX (developer_dir host ++ "/Platforms/MacOSX.platform/Developer/SDKs")

/-- The path given to the constructor in `GetGenericSDKDirectoriesToSearch`. -/
def GenericSDKPath : String := "/AppleInternal/Developer/KDKs"

/-- The path given to the constructor in `GetMacDirectoriesToSearch`. -/
def SystemLibraryExtensionsPath : String := "/System/Library/Extensions"

/-- The buffer `pathbuf` filled in `GetGenericDirectoriesToSearch`. -/
def SymbolsPath (host : Host F M) : String :=
  snprintf PATH_MAX (developer_dir host ++ "/../Symbols")

/-- The test `spec.Exists () && spec.GetFileType () == FileSpec::eFileTypeDirectory`. -/
def IsExistingDirectory (host : Host F M) (spec : F) : Bool :=
  host.Exists spec && decide (host.GetFileType spec = FileType.eFileTypeDirectory)

/-- What one of the `Get...DirectoriesToSearch` methods contributes for the path
it probes: the file spec of the path when that exists as a directory, and
nothing otherwise.  Used to state which roots `SearchForKexts` selects. -/
def existing_directory (host : Host F M) (path : String) : List F :=
  if IsExistingDirectory host (host.mkFileSpec path true) then [host.mkFileSpec path true] else []

/-- The method `PlatformDarwinKernel::GetiOSSDKDirectoriesToSearch`. -/
def GetiOSSDKDirectoriesToSearch (host : Host F M) (directories : List F) : List F :=
  let ios_sdk := host.mkFileSpec (iOSSDKPath host) true
  if IsExistingDirectory host ios_sdk then directories ++ [ios_sdk] else directories

/-- The method `PlatformDarwinKernel::GetMacSDKDirectoriesToSearch`. -/
def GetMacSDKDirectoriesToSearch (host : Host F M) (directories : List F) : List F :=
  let mac_sdk := host.mkFileSpec (MacSDKPath host) true
  if IsExistingDirectory host mac_sdk then directories ++ [mac_sdk] else directories

/-- The method `PlatformDarwinKernel::GetGenericSDKDirectoriesToSearch`. -/
def GetGenericSDKDirectoriesToSearch (host : Host F M) (directories : List F) : List F :=
  let generic_sdk := host.mkFileSpec GenericSDKPath true
  if IsExistingDirectory host generic_sdk then directories ++ [generic_sdk] else directories

/-- The method `PlatformDarwinKernel::GetiOSDirectoriesToSearch`, whose body is empty. -/
def GetiOSDirectoriesToSearch (_host : Host F M) (directories : List F) : List F :=
  directories

/-- The method `PlatformDarwinKernel::GetMacDirectoriesToSearch`. -/
def GetMacDirectoriesToSearch (host : Host F M) (directories : List F) : List F :=
  let sle := host.mkFileSpec SystemLibraryExtensionsPath true
  if IsExistingDirectory host sle then directories ++ [sle] else directories

/-- The method `PlatformDarwinKernel::GetGenericDirectoriesToSearch`. -/
def GetGenericDirectoriesToSearch (host : Host F M) (directories : List F) : List F :=
  let symbols_dir := host.mkFileSpec (SymbolsPath host) true
  if IsExistingDirectory host symbols_dir then directories ++ [symbols_dir] else directories

/-- The function `FileSpec::EnumerateDirectory` for a callback that always
answers `eEnumerateDirectoryResultNext`: the callback runs on every entry whose
type is asked for, in order, threading the baton. -/
def EnumerateDirectory {β : Type} (host : Host F M) (dir_path : String)
    (find_directories find_files find_other : Bool)
    (callback : β → FileType → F → β) (baton : β) : β :=
  ((host.ReadDirectory dir_path).filter (fun e =>
      match e.1 with
      | FileType.eFileTypeDirectory => find_directories
      | FileType.eFileTypeRegular => find_files
      | _ => find_other)).foldl (fun b e => callback b e.1 e.2) baton

/-- The callback `PlatformDarwinKernel::GetKextDirectoriesInSDK`; the baton is
the vector `kext_dirs`. -/
def GetKextDirectoriesInSDK (host : Host F M) (baton : List F) (file_type : FileType)
    (file_spec : F) : List F :=
  if file_type = FileType.eFileTypeDirectory
      ∧ (host.GetFileNameExtension file_spec = "sdk" ∨ host.GetFileNameExtension file_spec = "kdk") then
    match host.GetPath file_spec with
    | some pathbuf =>
      let kext_directory_str := snprintf PATH_MAX (pathbuf ++ "/" ++ "System/Library/Extensions")
      let kext_directory := host.mkFileSpec kext_directory_str true
      if IsExistingDirectory host kext_directory then baton ++ [kext_directory] else baton
    | none => baton
  else
    baton

/-- The method `PlatformDarwinKernel::SearchSDKsForKextDirectories`. -/
def SearchSDKsForKextDirectories (host : Host F M) : List F → List F → List F
  | [], kext_dirs => kext_dirs
  | sdk_dir :: rest, kext_dirs =>
    match host.GetPath sdk_dir with
    | some pathbuf =>
      SearchSDKsForKextDirectories host rest
        (EnumerateDirectory host pathbuf true false false (GetKextDirectoriesInSDK host) kext_dirs)
    | none => SearchSDKsForKextDirectories host rest kext_dirs

/-- The contribution of one entry of an SDK area in the words of the
specification: the bundle root `System/Library/Extensions` below the entry when
the entry is a directory whose name extension is `sdk` or `kdk` and that bundle
root exists as a directory, and nothing otherwise.  Compared with
`SearchSDKsForKextDirectories` in the theorems. -/
def sdk_contribution (host : Host F M) (entry : FileType × F) : List F :=
  if entry.1 = FileType.eFileTypeDirectory
      ∧ (host.GetFileNameExtension entry.2 = "sdk" ∨ host.GetFileNameExtension entry.2 = "kdk") then
    match host.GetPath entry.2 with
    | some path =>
      existing_directory host (snprintf PATH_MAX (path ++ "/System/Library/Extensions"))
    | none => []
  else []

/-- The contribution of one SDK area: those of its entries, in the order of the
enumeration. -/
def sdk_area_contribution (host : Host F M) (sdk_dir : F) : List F :=
  match host.GetPath sdk_dir with
  | some pathbuf => ((host.ReadDirectory pathbuf).map (sdk_contribution host)).flatten
  | none => []

/-- The vector `sdk_dirs` built at the head of `SearchForKexts`. -/
def SearchForKexts.sdk_dirs (host : Host F M) (m_ios_debug_session : LazyBool) : List F :=
  let sdk_dirs : List F := []
  let sdk_dirs := if m_ios_debug_session ≠ LazyBool.eLazyBoolNo then
    GetiOSSDKDirectoriesToSearch host sdk_dirs else sdk_dirs
  let sdk_dirs := if m_ios_debug_session ≠ LazyBool.eLazyBoolYes then
    GetMacSDKDirectoriesToSearch host sdk_dirs else sdk_dirs
  GetGenericSDKDirectoriesToSearch host sdk_dirs

/-- The vector `kext_dirs` built by `SearchForKexts`, the value it stores in
`m_directories_searched`. -/
def SearchForKexts.kext_dirs (host : Host F M) (m_ios_debug_session : LazyBool) : List F :=
  let kext_dirs := SearchSDKsForKextDirectories host (SearchForKexts.sdk_dirs host m_ios_debug_session) []
  let kext_dirs := if m_ios_debug_session ≠ LazyBool.eLazyBoolNo then
    GetiOSDirectoriesToSearch host kext_dirs else kext_dirs
  let kext_dirs := if m_ios_debug_session ≠ LazyBool.eLazyBoolYes then
    GetMacDirectoriesToSearch host kext_dirs else kext_dirs
  GetGenericDirectoriesToSearch host kext_dirs

/-! ## Indexing: `IndexKextsInDirectories` and `GetKextsInDirectory` -/

/-- The callback `PlatformDarwinKernel::GetKextsInDirectory`; the baton is the
vector `kext_bundles`.  The callback calls `EnumerateDirectory` with itself as
callback, a recursion the source does not bound: `fuel` bounds its depth here,
and the baton is `none` once the fuel has run out. -/
def GetKextsInDirectory (host : Host F M) : Nat → Option (List F) → FileType → F → Option (List F)
  | 0, _, _, _ => none
  | _ + 1, none, _, _ => none
  | fuel + 1, some baton, file_type, file_spec =>
    if file_type = FileType.eFileTypeDirectory ∧ host.GetFileNameExtension file_spec = "kext" then
      let baton := baton ++ [file_spec]
      let contents_plugins_path := snprintf PATH_MAX
        (host.GetDirectory file_spec ++ "/" ++ host.GetFilename file_spec ++ "/Contents/PlugIns")
      let contents_plugins := host.mkFileSpec contents_plugins_path false
      if IsExistingDirectory host contents_plugins then
        EnumerateDirectory host contents_plugins_path true false false
          (GetKextsInDirectory host fuel) (some baton)
      else
        let plugins_path := snprintf PATH_MAX
          (host.GetDirectory file_spec ++ "/" ++ host.GetFilename file_spec ++ "/PlugIns")
        let plugins := host.mkFileSpec plugins_path false
        if IsExistingDirectory host plugins then
          EnumerateDirectory host plugins_path true false false
            (GetKextsInDirectory host fuel) (some baton)
        else
          some baton
    else
      some baton

/-- The nested plugin area of a bundle in the words of the specification: the
path `Contents/PlugIns` below the bundle when that exists as a directory,
otherwise the path `PlugIns` below the bundle when that exists as a directory,
otherwise none.  Compared with `GetKextsInDirectory` in the theorems. -/
def plugin_area (host : Host F M) (file_spec : F) : Option String :=
  let contents_plugins_path := snprintf PATH_MAX
    (host.GetDirectory file_spec ++ "/" ++ host.GetFilename file_spec ++ "/Contents/PlugIns")
  let plugins_path := snprintf PATH_MAX
    (host.GetDirectory file_spec ++ "/" ++ host.GetFilename file_spec ++ "/PlugIns")
  if IsExistingDirectory host (host.mkFileSpec contents_plugins_path false) then
    some contents_plugins_path
  else if IsExistingDirectory host (host.mkFileSpec plugins_path false) then
    some plugins_path
  else none

/-- Whether an enumerated entry is marked as a bundle: a directory whose name
extension is `kext`. -/
def is_kext_directory (host : Host F M) (file_type : FileType) (file_spec : F) : Bool :=
  decide (file_type = FileType.eFileTypeDirectory) &&
    decide (host.GetFileNameExtension file_spec = "kext")

/-- The first loop of `PlatformDarwinKernel::IndexKextsInDirectories`, which
fills the vector `kext_bundles`. -/
def IndexKextsInDirectories.kext_bundles (host : Host F M) (fuel : Nat) :
    List F → Option (List F) → Option (List F)
  | [], kext_bundles => kext_bundles
  | dir :: rest, kext_bundles =>
    match host.GetPath dir with
    | some pathbuf =>
      IndexKextsInDirectories.kext_bundles host fuel rest
        (EnumerateDirectory host pathbuf true false false (GetKextsInDirectory host fuel) kext_bundles)
    | none => IndexKextsInDirectories.kext_bundles host fuel rest kext_bundles

/-- The second loop of `PlatformDarwinKernel::IndexKextsInDirectories`, which
inserts the identified bundles into `m_name_to_kext_path_map`. -/
def IndexKextsInDirectories.index (host : Host F M) :
    List F → BundleIDToKextMap F → BundleIDToKextMap F
  | [], m_name_to_kext_path_map => m_name_to_kext_path_map
  | kext :: rest, m_name_to_kext_path_map =>
    match host.GetPath kext with
    | some pathbuf =>
      match host.GetIdentifier pathbuf with
      | some bundle_id_buf =>
        IndexKextsInDirectories.index host rest (m_name_to_kext_path_map.insert (bundle_id_buf, kext))
      | none => IndexKextsInDirectories.index host rest m_name_to_kext_path_map
    | none => IndexKextsInDirectories.index host rest m_name_to_kext_path_map

/-- The entry that the second loop of `IndexKextsInDirectories` files for a
bundle: its identifier and the bundle, or nothing when the path or the
identifier cannot be obtained.  Used to state what the index contains. -/
def IndexKextsInDirectories.entry (host : Host F M) (kext : F) : Option (ConstString × F) :=
  match host.GetPath kext with
  | some pathbuf =>
    match host.GetIdentifier pathbuf with
    | some bundle_id_buf => some (bundle_id_buf, kext)
    | none => none
  | none => none

/-- The method `PlatformDarwinKernel::IndexKextsInDirectories`: the new value of
`m_name_to_kext_path_map`, or `none` when the discovery ran out of fuel. -/
def IndexKextsInDirectories (host : Host F M) (fuel : Nat) (kext_dirs : List F)
    (m_name_to_kext_path_map : BundleIDToKextMap F) : Option (BundleIDToKextMap F) :=
  match IndexKextsInDirectories.kext_bundles host fuel kext_dirs (some []) with
  | some kext_bundles => some (IndexKextsInDirectories.index host kext_bundles m_name_to_kext_path_map)
  | none => none

/-- The data members of a `PlatformDarwinKernel` object. -/
structure State (F : Type) where
  /-- The index from bundle identifier to bundle path. -/
  m_name_to_kext_path_map : BundleIDToKextMap F
  /-- The directories scanned for bundles. -/
  m_directories_searched : List F
  /-- The classification of the debug session. -/
  m_ios_debug_session : LazyBool

/-- The constructor of `PlatformDarwinKernel`, which starts from empty members
and runs `SearchForKexts`; `none` when the discovery ran out of fuel. -/
def SearchForKexts (host : Host F M) (fuel : Nat) (is_ios_debug_session : LazyBool) :
    Option (State F) :=
  let kext_dirs := SearchForKexts.kext_dirs host is_ios_debug_session
  match IndexKextsInDirectories host fuel kext_dirs [] with
  | some m => some { m_name_to_kext_path_map := m, m_directories_searched := kext_dirs,
                     m_ios_debug_session := is_ios_debug_session }
  | none => none

/-! ## Resolution: `GetSharedModule` and `ExamineKextForMatchingUUID` -/

/-- The method `PlatformDarwinKernel::ExamineKextForMatchingUUID`: the returned
error and the module left in `exe_module_sp`, which is empty on entry. -/
def ExamineKextForMatchingUUID (host : Host F M) (kext_bundle_path : F) (uuid : UUID) :
    Error × Option M :=
  let exe_file := host.ResolveExecutableInBundle kext_bundle_path
  if host.Exists exe_file then
    let r := host.ModuleList_GetSharedModule { file := exe_file, uuid := uuid }
    match r.2 with
    | some m => if host.GetObjectFile m then (r.1, some m) else (r.1, none)
    | none => (r.1, none)
  else
    (Error.success, none)

/-- The loop of `PlatformDarwinKernel::GetSharedModule` over the entries of the
map, from the entry at the head of `entries` on; `error` is the value of the
local variable on entry. -/
def GetSharedModule.loop (host : Host F M) (kext_bundle_cs : ConstString) (uuid : UUID) :
    List (ConstString × F) → Error → Error × Option M
  | [], error => (error, none)
  | it :: rest, error =>
    if it.1 = kext_bundle_cs then
      let r := ExamineKextForMatchingUUID host it.2 uuid
      match r.2 with
      | some m => (r.1, some m)
      | none => GetSharedModule.loop host kext_bundle_cs uuid rest r.1
    else
      GetSharedModule.loop host kext_bundle_cs uuid rest error

/-- The method `PlatformDarwinKernel::GetSharedModule`: the returned error and
the module left in `module_sp`. -/
def GetSharedModule (host : Host F M) (m_name_to_kext_path_map : BundleIDToKextMap F)
    (module_spec : ModuleSpec F) : Error × Option M :=
  match host.GetPath module_spec.file with
  | some kext_bundle_id =>
    if m_name_to_kext_path_map.count kext_bundle_id > 0 then
      GetSharedModule.loop host kext_bundle_id module_spec.uuid m_name_to_kext_path_map Error.success
    else
      (Error.success, none)
  | none => (Error.success, none)

/-- The bundles that the loop of `PlatformDarwinKernel::GetSharedModule` hands to
`ExamineKextForMatchingUUID`, in the order of the calls: the loop of
`GetSharedModule.loop` with the calls recorded. -/
def GetSharedModule.loop_examined (host : Host F M) (kext_bundle_cs : ConstString) (uuid : UUID) :
    List (ConstString × F) → List F
  | [] => []
  | it :: rest =>
    if it.1 = kext_bundle_cs then
      match (ExamineKextForMatchingUUID host it.2 uuid).2 with
      | some _ => [it.2]
      | none => it.2 :: GetSharedModule.loop_examined host kext_bundle_cs uuid rest
    else
      GetSharedModule.loop_examined host kext_bundle_cs uuid rest

/-- The bundles that one call of `PlatformDarwinKernel::GetSharedModule` hands to
`ExamineKextForMatchingUUID`, in the order of the calls. -/
def GetSharedModule.examined (host : Host F M) (m_name_to_kext_path_map : BundleIDToKextMap F)
    (module_spec : ModuleSpec F) : List F :=
  match host.GetPath module_spec.file with
  | some kext_bundle_id =>
    if m_name_to_kext_path_map.count kext_bundle_id > 0 then
      GetSharedModule.loop_examined host kext_bundle_id module_spec.uuid m_name_to_kext_path_map
    else
      []
  | none => []

/-! ## Creation: `CreateInstance` -/

/-- The machines of `llvm::Triple::ArchType` that the source names, and the others. -/
inductive ArchType where
  | UnknownArch
  | arm
  | thumb
  | x86
  | x86_64
  | ppc
  | ppc64
  | other (code : Nat)
  deriving DecidableEq, Repr

/-- The vendors of `llvm::Triple::VendorType` that the source tells apart.  The
source writes the second case of its switch over the vendor as
`llvm::Triple::UnknownArch`, whose value is that of `UnknownVendor`. -/
inductive VendorType where
  | UnknownVendor
  | Apple
  | other (code : Nat)
  deriving DecidableEq, Repr

/-- The systems of `llvm::Triple::OSType` that the source tells apart. -/
inductive OSType where
  | UnknownOS
  | Darwin
  | MacOSX
  | other (code : Nat)
  deriving DecidableEq, Repr

/-- The class `lldb_private::ArchSpec`, reduced to what `CreateInstance` reads. -/
structure ArchSpec where
  /-- The method `IsValid`. -/
  IsValid : Bool
  /-- The vendor of the triple, `GetTriple ().getVendor ()`. -/
  vendor : VendorType
  /-- The system of the triple, `GetTriple ().getOS ()`. -/
  os : OSType
  /-- The method `TripleVendorWasSpecified`. -/
  TripleVendorWasSpecified : Bool
  /-- The method `TripleOSWasSpecified`. -/
  TripleOSWasSpecified : Bool
  /-- The method `GetMachine`. -/
  machine : ArchType
  deriving DecidableEq, Repr

/-- The body of `PlatformDarwinKernel::CreateInstance` up to the construction:
`none` when it returns `NULL`, otherwise the argument `is_ios_debug_session` of
`new PlatformDarwinKernel (...)`.  The argument `arch` is `none` for a null pointer. -/
def CreateInstance.is_ios_debug_session (force : Bool) (arch : Option ArchSpec) :
    Option LazyBool :=
  if force = false then none
  else
    let create := force
    let is_ios_debug_session := LazyBool.eLazyBoolCalculate
    let create :=
      match arch with
      | some a =>
        if create = false ∧ a.IsValid = true then
          let create :=
            match a.vendor with
            | VendorType.Apple => true
            | VendorType.UnknownVendor => !a.TripleVendorWasSpecified
            | _ => create
          if create then
            match a.os with
            | OSType.Darwin => create
            | OSType.MacOSX => create
            | OSType.UnknownOS => !a.TripleOSWasSpecified
            | _ => false
          else create
        else create
      | none => create
    let is_ios_debug_session :=
      match arch with
      | some a =>
        if a.IsValid then
          match a.machine with
          | ArchType.x86 => LazyBool.eLazyBoolNo
          | ArchType.x86_64 => LazyBool.eLazyBoolNo
          | ArchType.ppc => LazyBool.eLazyBoolNo
          | ArchType.ppc64 => LazyBool.eLazyBoolNo
          | ArchType.arm => LazyBool.eLazyBoolYes
          | ArchType.thumb => LazyBool.eLazyBoolYes
          | _ => LazyBool.eLazyBoolCalculate
        else is_ios_debug_session
      | none => is_ios_debug_session
    if create then some is_ios_debug_session else none

end PlatformDarwinKernel

/-! ## The module cache of `ModuleCache.h`

The header declares `Put`, `Get`, `GetModuleDirectory`, `GetHostSysRootModulePath`
and `CreateHostSysRootModuleSymLink` and documents the two views of the cache;
the bodies are in `ModuleCache.cpp`, which is not among the embedded files.
The definitions below follow the class documentation of the header for the
layout of the paths and the specification (sections 4.4 and 4.5) for the
behaviour of `Put`, `Get` and the registry of loaded modules. -/

namespace ModuleCache

/-- Modelled from the spec: a path of the cache store, as the sequence of its
components below the file-system root (`FileSpec` is not among the embedded files). -/
abbrev Path := List String

/-- Modelled from the spec: what the store holds at a path: a regular file with
its bytes, a directory, or a symbolic link with its target (the file system is
outside the embedded files). -/
inductive Node where
  | file (content : List Nat)
  | directory
  | symlink (target : Path)
  deriving DecidableEq, Repr

/-- Modelled from the spec: the persistent store, the node at each path if any
(the file system is outside the embedded files). -/
abbrev Store := Path → Option Node

/-- Modelled from the spec: the store with the node `n` placed at `p` (a file-system
write, outside the embedded files). -/
def Store.write (s : Store) (p : Path) (n : Node) : Store :=
  fun q => if q = p then some n else s q

/-- Modelled from the spec: the error taxonomy of section 7 (the `Error` values
of `ModuleCache.cpp` are not among the embedded files). -/
inductive CacheError where
  | NotFound
  | Mismatch
  | Invalid
  | IOError
  deriving DecidableEq, Repr

deriving instance DecidableEq for Except

/-- Modelled from the spec: the services the cache consumes: the textual form of
a fingerprint (`UUID::GetAsString`) and whether the shared loading service can
open and parse given bytes (`LoadModule` of section 6); neither is among the
embedded files. -/
structure Services where
  /-- The text of a fingerprint, used as a directory name. -/
  GetAsString : UUID → String
  /-- Whether the loading service can parse the bytes of a binary. -/
  parses : List Nat → Bool

/-- Modelled from the spec: `ModuleCache::GetModuleDirectory`, declared in the
header without body; by the class documentation the UUID view of a module lies
in `${ROOT}/.cache/${UUID}`. -/
def GetModuleDirectory (sv : Services) (root_dir_spec : Path) (uuid : UUID) : Path :=
  root_dir_spec ++ [".cache", sv.GetAsString uuid]

/-- Modelled from the spec: the last component of a path, `FileSpec::GetFilename`
(not among the embedded files). -/
def GetFilename (file : Path) : String :=
  file.getLast?.getD ""

/-- Modelled from the spec: the canonical file of a module; by the class
documentation of the header the UUID view is `${ROOT}/.cache/${UUID}/${MODULE_FILENAME}`
(the code that joins the two is in the absent `ModuleCache.cpp`). -/
def GetModuleFilePath (sv : Services) (root_dir_spec : Path) (module_spec : ModuleSpec Path) :
    Path :=
  GetModuleDirectory sv root_dir_spec module_spec.uuid ++ [GetFilename module_spec.file]

/-- Modelled from the spec: `ModuleCache::GetHostSysRootModulePath`, declared in
the header without body; by the class documentation the sysroot view is
`${ROOT}/${HOSTNAME}/${MODULE_FULL_FILEPATH}`. -/
def GetHostSysRootModulePath (root_dir_spec : Path) (hostname : String)
    (platform_module_spec : Path) : Path :=
  root_dir_spec ++ [hostname] ++ platform_module_spec

/-- Modelled from the spec: the parent directories of a path, outermost first
(directory creation is outside the embedded files). -/
def parents (p : Path) : List Path :=
  (List.range p.length).map (fun i => p.take i)

/-- Modelled from the spec: creation of the listed directories, where a directory
that exists already counts as success (section 5) and a path held by another
kind of node is a failure; `none` for the failure. -/
def MakeDirectories (s : Store) : List Path → Option Store
  | [] => some s
  | d :: ds =>
    match s d with
    | none => MakeDirectories (s.write d Node.directory) ds
    | some Node.directory => MakeDirectories s ds
    | some _ => none

/-- Modelled from the spec: `ModuleCache::CreateHostSysRootModuleSymLink`,
declared in the header without body: the mirror's parent directories are
created and the indirection is (re)created at the mirror path, replacing an
existing indirection (section 4.5). -/
def CreateHostSysRootModuleSymLink (s : Store) (sysroot_module_path_spec module_file_path : Path) :
    Except CacheError Unit × Store :=
  match MakeDirectories s (parents sysroot_module_path_spec) with
  | none => (Except.error CacheError.IOError, s)
  | some s1 =>
    match s1 sysroot_module_path_spec with
    | none => (Except.ok (), s1.write sysroot_module_path_spec (Node.symlink module_file_path))
    | some (Node.symlink _) =>
      (Except.ok (), s1.write sysroot_module_path_spec (Node.symlink module_file_path))
    | some _ => (Except.error CacheError.IOError, s1)

/-- Modelled from the spec: `ModuleCache::Put`, declared in the header without
body, after section 4.5: when the canonical path holds a file already the
content is left alone; otherwise the parent directories are created and the
source file is copied into place; then the mirror indirection is ensured.  Any
file-system failure gives `IOError`. -/
def Put (sv : Services) (root_dir_spec : Path) (hostname : String)
    (module_spec : ModuleSpec Path) (tmp_file : Path) (s : Store) :
    Except CacheError Unit × Store :=
  let module_file_path := GetModuleFilePath sv root_dir_spec module_spec
  let sysroot_module_path_spec := GetHostSysRootModulePath root_dir_spec hostname module_spec.file
  match s module_file_path with
  | some (Node.file _) =>
    CreateHostSysRootModuleSymLink s sysroot_module_path_spec module_file_path
  | some _ => (Except.error CacheError.IOError, s)
  | none =>
    match s tmp_file with
    | some (Node.file content) =>
      match MakeDirectories s (parents module_file_path) with
      | none => (Except.error CacheError.IOError, s)
      | some s1 =>
        CreateHostSysRootModuleSymLink (s1.write module_file_path (Node.file content))
          sysroot_module_path_spec module_file_path
    | _ => (Except.error CacheError.IOError, s)

end ModuleCache

/-! ## A concrete installation used to evaluate the definitions -/

namespace Scenario

/-- A loaded module of the concrete installation: the file it was read from,
its fingerprint, and whether it has an object file. -/
structure LoadedModule where
  /-- The executable the module was read from. -/
  file : String
  /-- The fingerprint stored in the executable. -/
  uuid : UUID
  /-- Whether the executable could be parsed into an object file. -/
  has_object_file : Bool
  deriving DecidableEq, Repr

/-- The executables present on the disk of the concrete installation, each with
the fingerprint stored in it. -/
def disk : String → Option UUID
  | "/SLE/A.kext/Contents/MacOS/A" => some 1
  | "/SLE/B.kext/Contents/MacOS/B" => some 2
  | "/KDK1/N.kext/Contents/MacOS/N" => some 1
  | "/KDK2/N.kext/Contents/MacOS/N" => some 2
  | _ => none

/-- The executable of each bundle of the concrete installation. -/
def executable : String → String
  | "/SLE/A.kext" => "/SLE/A.kext/Contents/MacOS/A"
  | "/SLE/B.kext" => "/SLE/B.kext/Contents/MacOS/B"
  | "/KDK1/N.kext" => "/KDK1/N.kext/Contents/MacOS/N"
  | "/KDK2/N.kext" => "/KDK2/N.kext/Contents/MacOS/N"
  | p => p

/-- The bundle identifier stored in each bundle of the concrete installation;
the bundle `/SLE/Broken.kext` has no readable identifier. -/
def identifier : String → Option String
  | "/SLE/A.kext" => some "com.x.a"
  | "/SLE/B.kext" => some "com.x.b"
  | "/KDK1/N.kext" => some "com.x.n"
  | "/KDK2/N.kext" => some "com.x.n"
  | _ => none

/-- A module-loading service over `disk`.  With `checks_uuid` it returns a
module only when the fingerprint of the file equals the UUID of the module
spec; without, it returns the module of the file whatever the UUID asked for. -/
def load (checks_uuid : Bool) (spec : ModuleSpec String) : Error × Option LoadedModule :=
  match disk spec.file with
  | some u =>
    if checks_uuid && decide (u ≠ spec.uuid) then (Error.failure "UUID mismatch", none)
    else (Error.success, some { file := spec.file, uuid := u, has_object_file := true })
  | none => (Error.failure "no such file", none)

/-- The concrete installation: a `FileSpec` is its path, the only directory is
`/SLE`, and the developer directory is not configured. -/
def host (checks_uuid : Bool) : Host String LoadedModule where
  mkFileSpec := fun p _ => p
  GetPath := fun p => if p = "" then none else some (snprintf PATH_MAX p)
  Exists := fun p => (disk p).isSome || decide (p = "/SLE")
  GetFileType := fun p =>
    if p = "/SLE" then FileType.eFileTypeDirectory
    else if (disk p).isSome then FileType.eFileTypeRegular else FileType.eFileTypeInvalid
  GetFileNameExtension := fun _ => ""
  GetDirectory := fun _ => ""
  GetFilename := fun p => p
  ReadDirectory := fun _ => []
  ResolveExecutableInBundle := executable
  ModuleList_GetSharedModule := load checks_uuid
  GetObjectFile := fun m => m.has_object_file
  GetUUID := fun m => m.uuid
  GetIdentifier := identifier
  GetDeveloperDirectory := none

/-- The index of the bundles `A.kext` and `B.kext` of one bundle root. -/
def indexAB : BundleIDToKextMap String :=
  [("com.x.a", "/SLE/A.kext"), ("com.x.b", "/SLE/B.kext")]

/-- The index of two bundles sharing the identifier `com.x.n`. -/
def indexNN : BundleIDToKextMap String :=
  [("com.x.n", "/KDK1/N.kext"), ("com.x.n", "/KDK2/N.kext")]

/-- The index `indexNN` with its two entries in the other order. -/
def indexNN_swapped : BundleIDToKextMap String :=
  [("com.x.n", "/KDK2/N.kext"), ("com.x.n", "/KDK1/N.kext")]

/-- The module stored in the executable of a bundle of the concrete installation. -/
def module_of (kext : String) : LoadedModule :=
  { file := executable kext, uuid := (disk (executable kext)).getD 0, has_object_file := true }

/-- The directories of a second concrete installation, with two toolchains. -/
def directories : List String :=
  ["/AppleInternal/Developer/KDKs",
   "/Applications/Xcode.app/Contents/Developer/Platforms/iPhoneOS.platform/Developer/SDKs",
   "/Xcode5/Developer/Platforms/iPhoneOS.platform/Developer/SDKs",
   "/Xcode5/Developer/Platforms/MacOSX.platform/Developer/SDKs",
   "/System/Library/Extensions"]

/-- The second concrete installation, with the developer directory as given. -/
def sdk_host (developer : Option String) : Host String LoadedModule :=
  { host true with
    Exists := fun p => decide (p ∈ directories)
    GetFileType := fun p =>
      if p ∈ directories then FileType.eFileTypeDirectory else FileType.eFileTypeInvalid
    GetDeveloperDirectory := developer }

/-- The name extension of a path: the text after the last dot of its last component. -/
def extension (p : String) : String :=
  let name := p.data.reverse.takeWhile (fun c => c != '/')
  if '.' ∈ name then String.mk (name.takeWhile (fun c => c != '.')).reverse else ""

/-- The directory part of a path: the text before its last slash. -/
def directory_of (p : String) : String :=
  String.mk ((p.data.reverse.dropWhile (fun c => c != '/')).drop 1).reverse

/-- The file name of a path: the text after its last slash. -/
def filename_of (p : String) : String :=
  String.mk (p.data.reverse.takeWhile (fun c => c != '/')).reverse

/-- The entries of the directories of a third concrete installation.  The bundle
`A.kext` has both plugin areas, the bundle `B.kext` only `PlugIns`; `/SDKs` is an
SDK area with one SDK that has a bundle root and one KDK that has none. -/
def tree : String → List (FileType × String)
  | "/SLE" =>
    [(FileType.eFileTypeDirectory, "/SLE/A.kext"), (FileType.eFileTypeRegular, "/SLE/notes.kext"),
     (FileType.eFileTypeDirectory, "/SLE/docs"), (FileType.eFileTypeDirectory, "/SLE/B.kext")]
  | "/SLE/A.kext/Contents/PlugIns" =>
    [(FileType.eFileTypeDirectory, "/SLE/A.kext/Contents/PlugIns/P.kext")]
  | "/SLE/A.kext/PlugIns" => [(FileType.eFileTypeDirectory, "/SLE/A.kext/PlugIns/Q.kext")]
  | "/SLE/B.kext/PlugIns" => [(FileType.eFileTypeDirectory, "/SLE/B.kext/PlugIns/R.kext")]
  | "/SDKs" =>
    [(FileType.eFileTypeDirectory, "/SDKs/MacOSX10.8.sdk"),
     (FileType.eFileTypeDirectory, "/SDKs/Old.kdk"),
     (FileType.eFileTypeDirectory, "/SDKs/notes"),
     (FileType.eFileTypeRegular, "/SDKs/file.sdk")]
  | _ => []

/-- The directories of the third concrete installation. -/
def tree_directories : List String :=
  ["/SLE", "/SLE/A.kext", "/SLE/A.kext/Contents/PlugIns", "/SLE/A.kext/PlugIns",
   "/SLE/A.kext/Contents/PlugIns/P.kext", "/SLE/A.kext/PlugIns/Q.kext",
   "/SLE/docs", "/SLE/B.kext", "/SLE/B.kext/PlugIns", "/SLE/B.kext/PlugIns/R.kext",
   "/SDKs", "/SDKs/MacOSX10.8.sdk", "/SDKs/MacOSX10.8.sdk/System/Library/Extensions",
   "/SDKs/Old.kdk", "/SDKs/notes"]

/-- The third concrete installation: a file spec is its path, split at the last
slash into directory and file name. -/
def tree_host : Host String LoadedModule :=
  { host true with
    Exists := fun p => decide (p ∈ tree_directories)
    GetFileType := fun p =>
      if p ∈ tree_directories then FileType.eFileTypeDirectory else FileType.eFileTypeInvalid
    GetFileNameExtension := extension
    GetDirectory := directory_of
    GetFilename := filename_of
    ReadDirectory := tree }

/-- The services of a concrete cache: a fingerprint is written as that many
letters `F`, and every binary parses. -/
def services : ModuleCache.Services where
  GetAsString := fun u => String.mk (List.replicate u 'F')
  parses := fun _ => true

/-- A store holding only the downloaded file `/tmp/dl` with the bytes 1, 2, 3. -/
def store : ModuleCache.Store :=
  fun p => if p = ["tmp", "dl"] then some (ModuleCache.Node.file [1, 2, 3]) else none

/-- The identity of the module `/lib/libc.so.6` with fingerprint 2. -/
def libc : ModuleSpec ModuleCache.Path := { file := ["lib", "libc.so.6"], uuid := 2 }

end Scenario

/-! # Theorems -/

namespace PlatformDarwinKernel

variable {F M : Type}

/-! ## Resolution -/

/-- An entry count of zero means that no entry carries the key. -/
theorem count_eq_zero_iff (m : BundleIDToKextMap F) (k : ConstString) :
    m.count k = 0 ↔ ∀ x ∈ m, x.1 ≠ k := by
  unfold BundleIDToKextMap.count
  rw [List.length_eq_zero, List.filter_eq_nil_iff]
  simp

/-- What `ExamineKextForMatchingUUID` accepts: the executable exists, the
loading service returned the module, and the module has an object file. -/
theorem examine_eq_some_iff (host : Host F M) (kext : F) (uuid : UUID) (e : Error) (m : M) :
    ExamineKextForMatchingUUID host kext uuid = (e, some m) ↔
      host.Exists (host.ResolveExecutableInBundle kext) = true ∧
      host.ModuleList_GetSharedModule
        { file := host.ResolveExecutableInBundle kext, uuid := uuid } = (e, some m) ∧
      host.GetObjectFile m = true := by
  unfold ExamineKextForMatchingUUID
  dsimp only
  cases hex : host.Exists (host.ResolveExecutableInBundle kext) with
  | false => simp
  | true =>
    rcases hl : host.ModuleList_GetSharedModule
      { file := host.ResolveExecutableInBundle kext, uuid := uuid } with ⟨e', o⟩
    cases o with
    | none => simp
    | some m' =>
      dsimp only
      cases ho : host.GetObjectFile m' with
      | false =>
        simp only [if_true, Bool.false_eq_true, if_false, Prod.mk.injEq, true_and]
        constructor
        · intro h; cases h.2
        · rintro ⟨⟨-, h⟩, h'⟩
          cases h; rw [ho] at h'; cases h'
      | true =>
        simp only [if_true, Prod.mk.injEq, Option.some.injEq, true_and]
        constructor
        · rintro ⟨h1, h2⟩; subst h1; subst h2; exact ⟨⟨rfl, rfl⟩, ho⟩
        · rintro ⟨⟨h1, h2⟩, -⟩; exact ⟨h1, h2⟩

/-- The loop passes over the entries filed under other keys. -/
theorem loop_of_no_entry (host : Host F M) (cs : ConstString) (uuid : UUID)
    (entries : List (ConstString × F)) (error : Error) (h : ∀ x ∈ entries, x.1 ≠ cs) :
    GetSharedModule.loop host cs uuid entries error = (error, none) := by
  induction entries generalizing error with
  | nil => rfl
  | cons x rest ih =>
    have hx : x.1 ≠ cs := h x (List.mem_cons_self _ _)
    simp only [GetSharedModule.loop, hx, if_false]
    exact ih error (fun y hy => h y (List.mem_cons_of_mem _ hy))

/-- The check `count (kext_bundle_cs) > 0` does not change the outcome: the
loop alone gives the same result. -/
theorem GetSharedModule_eq_loop (host : Host F M) (map : BundleIDToKextMap F)
    (spec : ModuleSpec F) (id : String) (hid : host.GetPath spec.file = some id) :
    GetSharedModule host map spec = GetSharedModule.loop host id spec.uuid map Error.success := by
  unfold GetSharedModule
  rw [hid]
  by_cases hc : map.count id > 0
  · simp [hc]
  · have h0 : map.count id = 0 := by omega
    simp only [hc, if_false]
    exact (loop_of_no_entry host id spec.uuid map Error.success
      ((count_eq_zero_iff map id).1 h0)).symm

/-- A module returned by the loop was accepted for one of the entries filed
under the requested key. -/
theorem loop_some_mem (host : Host F M) (cs : ConstString) (uuid : UUID)
    (entries : List (ConstString × F)) (error e : Error) (m : M)
    (h : GetSharedModule.loop host cs uuid entries error = (e, some m)) :
    ∃ kext, (cs, kext) ∈ entries ∧ ExamineKextForMatchingUUID host kext uuid = (e, some m) := by
  induction entries generalizing error with
  | nil => simp [GetSharedModule.loop] at h
  | cons x rest ih =>
    obtain ⟨k, v⟩ := x
    by_cases hk : k = cs
    · subst hk
      rcases hr : ExamineKextForMatchingUUID host v uuid with ⟨e', o⟩
      cases o with
      | some m' =>
        simp only [GetSharedModule.loop, if_true, hr, Prod.mk.injEq, Option.some.injEq] at h
        obtain ⟨h1, h2⟩ := h
        subst h1; subst h2
        exact ⟨v, List.mem_cons_self _ _, hr⟩
      | none =>
        simp only [GetSharedModule.loop, if_true, hr] at h
        obtain ⟨kext, hmem, hk⟩ := ih e' h
        exact ⟨kext, List.mem_cons_of_mem _ hmem, hk⟩
    · simp only [GetSharedModule.loop, hk, if_false] at h
      obtain ⟨kext, hmem, hk⟩ := ih error h
      exact ⟨kext, List.mem_cons_of_mem _ hmem, hk⟩

/-- When every candidate under the key either yields the result `r`, which
carries a module, or is skipped, and one candidate does yield `r`, the loop
returns `r` wherever that candidate sits. -/
theorem loop_of_unique (host : Host F M) (cs : ConstString) (uuid : UUID)
    (entries : List (ConstString × F)) (error : Error) (r : Error × Option M)
    (hr : r.2.isSome = true)
    (hall : ∀ kext, (cs, kext) ∈ entries →
      ExamineKextForMatchingUUID host kext uuid = r ∨
        (ExamineKextForMatchingUUID host kext uuid).2 = none)
    (hex : ∃ kext, (cs, kext) ∈ entries ∧ ExamineKextForMatchingUUID host kext uuid = r) :
    GetSharedModule.loop host cs uuid entries error = r := by
  induction entries generalizing error with
  | nil => obtain ⟨kext, hmem, -⟩ := hex; cases hmem
  | cons x rest ih =>
    obtain ⟨k, v⟩ := x
    have hall' : ∀ kext, (cs, kext) ∈ rest →
        ExamineKextForMatchingUUID host kext uuid = r ∨
          (ExamineKextForMatchingUUID host kext uuid).2 = none :=
      fun kext hm => hall kext (List.mem_cons_of_mem _ hm)
    by_cases hk : k = cs
    · subst hk
      rcases hall v (List.mem_cons_self _ _) with hv | hv
      · obtain ⟨e, o⟩ := r
        cases o with
        | none => simp at hr
        | some m => simp [GetSharedModule.loop, hv]
      · have hex' : ∃ kext, (k, kext) ∈ rest ∧ ExamineKextForMatchingUUID host kext uuid = r := by
          obtain ⟨kext, hmem, hk⟩ := hex
          rcases List.mem_cons.1 hmem with heq | hmem'
          · have : kext = v := (Prod.mk.inj heq).2
            subst this
            rw [hk] at hv
            rw [hv] at hr
            simp at hr
          · exact ⟨kext, hmem', hk⟩
        simp only [GetSharedModule.loop, if_true, hv]
        exact ih _ hall' hex'
    · have hex' : ∃ kext, (cs, kext) ∈ rest ∧ ExamineKextForMatchingUUID host kext uuid = r := by
        obtain ⟨kext, hmem, hk'⟩ := hex
        rcases List.mem_cons.1 hmem with heq | hmem'
        · exact absurd (Prod.mk.inj heq).1.symm hk
        · exact ⟨kext, hmem', hk'⟩
      simp only [GetSharedModule.loop, hk, if_false]
      exact ih _ hall' hex'

/-- When every candidate under the key is skipped, the loop returns no module. -/
theorem loop_of_all_skipped (host : Host F M) (cs : ConstString) (uuid : UUID)
    (entries : List (ConstString × F)) (error : Error)
    (hall : ∀ kext, (cs, kext) ∈ entries → (ExamineKextForMatchingUUID host kext uuid).2 = none) :
    (GetSharedModule.loop host cs uuid entries error).2 = none := by
  induction entries generalizing error with
  | nil => rfl
  | cons x rest ih =>
    obtain ⟨k, v⟩ := x
    have hall' : ∀ kext, (cs, kext) ∈ rest →
        (ExamineKextForMatchingUUID host kext uuid).2 = none :=
      fun kext hm => hall kext (List.mem_cons_of_mem _ hm)
    by_cases hk : k = cs
    · subst hk
      have hv := hall v (List.mem_cons_self _ _)
      simp only [GetSharedModule.loop, if_true, hv]
      exact ih _ hall'
    · simp only [GetSharedModule.loop, hk, if_false]
      exact ih _ hall'

/-- A candidate for which the loading service returns no module is skipped. -/
theorem examine_snd_none_of_load (host : Host F M) (kext : F) (uuid : UUID)
    (h : (host.ModuleList_GetSharedModule
      { file := host.ResolveExecutableInBundle kext, uuid := uuid }).2 = none) :
    (ExamineKextForMatchingUUID host kext uuid).2 = none := by
  unfold ExamineKextForMatchingUUID
  dsimp only
  rw [h]
  split <;> rfl

/-- A candidate whose executable exists and for which the loading service
returns a module with an object file is accepted with that module. -/
theorem examine_of_load_some (host : Host F M) (kext : F) (uuid : UUID) (m : M)
    (hexists : host.Exists (host.ResolveExecutableInBundle kext) = true)
    (hobj : host.GetObjectFile m = true)
    (h : (host.ModuleList_GetSharedModule
      { file := host.ResolveExecutableInBundle kext, uuid := uuid }).2 = some m) :
    ExamineKextForMatchingUUID host kext uuid =
      ((host.ModuleList_GetSharedModule
        { file := host.ResolveExecutableInBundle kext, uuid := uuid }).1, some m) := by
  rw [examine_eq_some_iff]
  refine ⟨hexists, ?_, hobj⟩
  rw [← h]

/-- In an index whose keys are pairwise distinct, a key has one bundle. -/
theorem eq_of_nodup_keys (map : BundleIDToKextMap F) (hnodup : (map.map Prod.fst).Nodup)
    (id : ConstString) (a b : F) (ha : (id, a) ∈ map) (hb : (id, b) ∈ map) : a = b := by
  induction map with
  | nil => cases ha
  | cons x rest ih =>
    rw [List.map_cons, List.nodup_cons] at hnodup
    obtain ⟨hx, hrest⟩ := hnodup
    rcases List.mem_cons.1 ha with ha' | ha'
    · rcases List.mem_cons.1 hb with hb' | hb'
      · rw [← ha'] at hb'; exact ((Prod.mk.inj hb').2).symm
      · exact absurd (List.mem_map.2 ⟨(id, b), hb', by rw [← ha']⟩) hx
    · rcases List.mem_cons.1 hb with hb' | hb'
      · exact absurd (List.mem_map.2 ⟨(id, a), ha', by rw [← hb']⟩) hx
      · exact ih hrest ha' hb'

/-- Claim C1, as amended.  Whenever `GetSharedModule` returns a module, that module
is the one the loading service returned for the existing executable of a bundle
indexed under the requested identifier, asked with the expected fingerprint in
the module spec, and it has an object file.  The resolver compares no
fingerprints itself: the returned module has the expected fingerprint provided
the loading service returns only modules whose fingerprint is the one asked for. -/
theorem GetSharedModule_module_is_loaded_candidate (host : Host F M)
    (map : BundleIDToKextMap F) (spec : ModuleSpec F) (e : Error) (m : M)
    (h : GetSharedModule host map spec = (e, some m)) :
    (∃ id kext, host.GetPath spec.file = some id ∧ (id, kext) ∈ map ∧
      host.Exists (host.ResolveExecutableInBundle kext) = true ∧
      host.ModuleList_GetSharedModule
        { file := host.ResolveExecutableInBundle kext, uuid := spec.uuid } = (e, some m) ∧
      host.GetObjectFile m = true) ∧
    ((∀ f e' m', host.ModuleList_GetSharedModule { file := f, uuid := spec.uuid } = (e', some m') →
        host.GetUUID m' = spec.uuid) → host.GetUUID m = spec.uuid) := by
  have hex : ∃ id kext, host.GetPath spec.file = some id ∧ (id, kext) ∈ map ∧
      host.Exists (host.ResolveExecutableInBundle kext) = true ∧
      host.ModuleList_GetSharedModule
        { file := host.ResolveExecutableInBundle kext, uuid := spec.uuid } = (e, some m) ∧
      host.GetObjectFile m = true := by
    cases hid : host.GetPath spec.file with
    | none => simp [GetSharedModule, hid] at h
    | some id =>
      rw [GetSharedModule_eq_loop host map spec id hid] at h
      obtain ⟨kext, hmem, hk⟩ := loop_some_mem host id spec.uuid map _ e m h
      obtain ⟨h1, h2, h3⟩ := (examine_eq_some_iff host kext spec.uuid e m).1 hk
      exact ⟨id, kext, rfl, hmem, h1, h2, h3⟩
  refine ⟨hex, fun hhon => ?_⟩
  obtain ⟨id, kext, -, -, -, hload, -⟩ := hex
  exact hhon _ e m hload

/-- Witness of claim C1: the concrete installation whose loading service checks the UUID. -/
theorem GetSharedModule_module_is_loaded_candidate_witness :
    GetSharedModule (Scenario.host true) Scenario.indexAB { file := "com.x.a", uuid := 1 } =
        (Error.success, some ⟨"/SLE/A.kext/Contents/MacOS/A", 1, true⟩) ∧
      (Scenario.host true).GetUUID ⟨"/SLE/A.kext/Contents/MacOS/A", 1, true⟩ = 1 :=
  ⟨by decide,
   (GetSharedModule_module_is_loaded_candidate (Scenario.host true) Scenario.indexAB
      { file := "com.x.a", uuid := 1 } Error.success ⟨"/SLE/A.kext/Contents/MacOS/A", 1, true⟩
      (by decide)).2 (by
        intro f e' m' hl
        simp only [Scenario.host, Scenario.load] at hl
        split at hl
        · split at hl
          · simp at hl
          · rename_i u hu hne
            simp only [Prod.mk.injEq, Option.some.injEq] at hl
            obtain ⟨-, rfl⟩ := hl
            simp only [Bool.true_and, decide_eq_true_eq, ne_eq, not_not] at hne
            exact hne
        · simp at hl)⟩

/-- Counterexample to claim C1 as stated: with a loading service that does not
reject fingerprint mismatches, the request for `com.x.a` with fingerprint 2
returns the module of `A.kext`, whose fingerprint is 1. -/
theorem GetSharedModule_returns_mismatching_module :
    ∃ m, (GetSharedModule (Scenario.host false) Scenario.indexAB
        { file := "com.x.a", uuid := 2 }).2 = some m ∧
      (Scenario.host false).GetUUID m ≠ 2 :=
  ⟨⟨"/SLE/A.kext/Contents/MacOS/A", 1, true⟩, by decide, by decide⟩

/-- Claim C2, as amended.  In an index whose identifiers are pairwise distinct, with
a loading service that returns the module of a bundle exactly when asked for its
actual fingerprint, `GetSharedModule` returns the module of the one bundle under
the requested identifier when the expected fingerprint is the actual one, and no
module otherwise; for an identifier without entry it returns no module and an
`Error` that is a success. -/
theorem GetSharedModule_of_distinct_identifiers (host : Host F M)
    (map : BundleIDToKextMap F) (spec : ModuleSpec F) (id : String)
    (hnodup : (map.map Prod.fst).Nodup)
    (hid : host.GetPath spec.file = some id) :
    (∀ kext m, (id, kext) ∈ map →
      host.Exists (host.ResolveExecutableInBundle kext) = true →
      host.GetObjectFile m = true →
      (∀ u, (host.ModuleList_GetSharedModule
          { file := host.ResolveExecutableInBundle kext, uuid := u }).2 =
        if u = host.GetUUID m then some m else none) →
      (spec.uuid = host.GetUUID m → (GetSharedModule host map spec).2 = some m) ∧
      (spec.uuid ≠ host.GetUUID m → (GetSharedModule host map spec).2 = none)) ∧
    ((∀ kext, (id, kext) ∉ map) → GetSharedModule host map spec = (Error.success, none)) := by
  rw [GetSharedModule_eq_loop host map spec id hid]
  refine ⟨fun kext m hmem hexists hobj hload => ⟨fun hF => ?_, fun hF => ?_⟩, fun hno => ?_⟩
  · have hl : (host.ModuleList_GetSharedModule
        { file := host.ResolveExecutableInBundle kext, uuid := spec.uuid }).2 = some m := by
      rw [hload, if_pos hF]
    have hk := examine_of_load_some host kext spec.uuid m hexists hobj hl
    rw [loop_of_unique host id spec.uuid map Error.success
      ((host.ModuleList_GetSharedModule
        { file := host.ResolveExecutableInBundle kext, uuid := spec.uuid }).1, some m) rfl
      (fun k hm => Or.inl (by rw [eq_of_nodup_keys map hnodup id k kext hm hmem]; exact hk))
      ⟨kext, hmem, hk⟩]
  · apply loop_of_all_skipped
    intro k hm
    rw [eq_of_nodup_keys map hnodup id k kext hm hmem]
    apply examine_snd_none_of_load
    rw [hload, if_neg hF]
  · apply loop_of_no_entry
    intro x hx hxid
    exact hno x.2 (by rw [← hxid]; exact hx)

/-- Witness of claim C2: the bundle root holding `A.kext` (`com.x.a`, fingerprint 1) and
`B.kext` (`com.x.b`, fingerprint 2), with a loading service that checks the UUID. -/
theorem GetSharedModule_of_distinct_identifiers_witness :
    (Scenario.indexAB.map Prod.fst).Nodup ∧
    (Scenario.host true).GetPath "com.x.a" = some "com.x.a" ∧
    (GetSharedModule (Scenario.host true) Scenario.indexAB { file := "com.x.a", uuid := 1 }).2 =
      some ⟨"/SLE/A.kext/Contents/MacOS/A", 1, true⟩ :=
  ⟨by decide, by decide,
   ((GetSharedModule_of_distinct_identifiers (Scenario.host true) Scenario.indexAB
      { file := "com.x.a", uuid := 1 } "com.x.a" (by decide) (by decide)).1
      "/SLE/A.kext" ⟨"/SLE/A.kext/Contents/MacOS/A", 1, true⟩ (by decide) (by decide) (by decide)
      (by
        intro u
        by_cases hu : u = 1
        · subst hu; decide
        · have hu' : (1 : Nat) ≠ u := fun h => hu h.symm
          simp [Scenario.host, Scenario.load, Scenario.executable, Scenario.disk, hu, hu'])).1 rfl⟩

/-- Counterexample to claim C2 as stated: in the index of `A.kext` and `B.kext`, the
request for the unknown identifier `com.x.c` returns an `Error` that is a
success, not a failure; and with a loading service that does not reject
mismatches the request for `com.x.a` with the fingerprint of `B.kext` returns
the module of `A.kext`. -/
theorem GetSharedModule_unknown_identifier_succeeds :
    GetSharedModule (Scenario.host true) Scenario.indexAB { file := "com.x.c", uuid := 1 } =
        (Error.success, none) ∧
      (GetSharedModule (Scenario.host true) Scenario.indexAB
        { file := "com.x.c", uuid := 1 }).1.Fail = false ∧
      GetSharedModule (Scenario.host false) Scenario.indexAB { file := "com.x.a", uuid := 2 } =
        (Error.success, some ⟨"/SLE/A.kext/Contents/MacOS/A", 1, true⟩) :=
  ⟨by decide, by decide, by decide⟩

/-- Claim C4, as amended.  With a loading service that returns the module of a bundle
exactly when asked for its actual fingerprint, and bundles under one identifier
whose fingerprints are pairwise distinct, `GetSharedModule` returns the module
of the bundle whose fingerprint is the expected one, and does so for every
permutation of the index. -/
theorem GetSharedModule_of_shared_identifier (host : Host F M)
    (map map' : BundleIDToKextMap F) (spec : ModuleSpec F) (id : String)
    (actual : F → M) (kext : F)
    (hperm : map.Perm map')
    (hid : host.GetPath spec.file = some id)
    (hload : ∀ k, (id, k) ∈ map → ∀ u,
      (host.ModuleList_GetSharedModule { file := host.ResolveExecutableInBundle k, uuid := u }).2 =
        if u = host.GetUUID (actual k) then some (actual k) else none)
    (hdistinct : ∀ k k', (id, k) ∈ map → (id, k') ∈ map →
      host.GetUUID (actual k) = host.GetUUID (actual k') → k = k')
    (hmem : (id, kext) ∈ map)
    (hexists : host.Exists (host.ResolveExecutableInBundle kext) = true)
    (hobj : host.GetObjectFile (actual kext) = true)
    (hF : spec.uuid = host.GetUUID (actual kext)) :
    GetSharedModule host map' spec =
      ((host.ModuleList_GetSharedModule
        { file := host.ResolveExecutableInBundle kext, uuid := spec.uuid }).1,
       some (actual kext)) := by
  rw [GetSharedModule_eq_loop host map' spec id hid]
  have hl : (host.ModuleList_GetSharedModule
      { file := host.ResolveExecutableInBundle kext, uuid := spec.uuid }).2 =
        some (actual kext) := by
    rw [hload kext hmem, if_pos hF]
  have hk := examine_of_load_some host kext spec.uuid (actual kext) hexists hobj hl
  apply loop_of_unique host id spec.uuid map' Error.success
    ((host.ModuleList_GetSharedModule
      { file := host.ResolveExecutableInBundle kext, uuid := spec.uuid }).1,
     some (actual kext)) rfl
  · intro k hm
    have hm' : (id, k) ∈ map := hperm.mem_iff.2 hm
    by_cases hu : spec.uuid = host.GetUUID (actual k)
    · left
      have : k = kext := hdistinct k kext hm' hmem (by rw [← hu, hF])
      rw [this]; exact hk
    · right
      apply examine_snd_none_of_load
      rw [hload k hm', if_neg hu]
  · exact ⟨kext, hperm.mem_iff.1 hmem, hk⟩

/-- Witness of claim C4: two bundles under `com.x.n` with the fingerprints 1 and 2; the
request for fingerprint 2 returns the second bundle also from the swapped index. -/
theorem GetSharedModule_of_shared_identifier_witness :
    Scenario.indexNN.Perm Scenario.indexNN_swapped ∧
    GetSharedModule (Scenario.host true) Scenario.indexNN_swapped { file := "com.x.n", uuid := 2 } =
      (Error.success, some ⟨"/KDK2/N.kext/Contents/MacOS/N", 2, true⟩) :=
  ⟨List.Perm.swap _ _ _,
   GetSharedModule_of_shared_identifier (Scenario.host true) Scenario.indexNN
      Scenario.indexNN_swapped { file := "com.x.n", uuid := 2 } "com.x.n" Scenario.module_of
      "/KDK2/N.kext" (List.Perm.swap _ _ _) (by decide)
      (by
        intro k hk u
        simp only [Scenario.indexNN, List.mem_cons, Prod.mk.injEq, true_and, List.mem_nil_iff,
          or_false] at hk
        rcases hk with rfl | rfl
        · by_cases hu : u = 1
          · subst hu; decide
          · have hu' : (1 : Nat) ≠ u := fun h => hu h.symm
            simp [Scenario.host, Scenario.load, Scenario.executable, Scenario.disk,
              Scenario.module_of, hu, hu']
        · by_cases hu : u = 2
          · subst hu; decide
          · have hu' : (2 : Nat) ≠ u := fun h => hu h.symm
            simp [Scenario.host, Scenario.load, Scenario.executable, Scenario.disk,
              Scenario.module_of, hu, hu'])
      (by
        intro k k' hk hk' h
        simp only [Scenario.indexNN, List.mem_cons, Prod.mk.injEq, true_and, List.mem_nil_iff,
          or_false] at hk hk'
        rcases hk with rfl | rfl <;> rcases hk' with rfl | rfl
        · rfl
        · exact absurd h (by decide)
        · exact absurd h (by decide)
        · rfl)
      (by decide) (by decide) (by decide) (by decide)⟩

/-- Counterexample to claim C4 as stated: with a loading service that does not reject
fingerprint mismatches, the request for fingerprint 2 under `com.x.n` returns
the bundle of fingerprint 1 from one order of the index and the bundle of
fingerprint 2 from the other. -/
theorem GetSharedModule_depends_on_index_order :
    Scenario.indexNN.Perm Scenario.indexNN_swapped ∧
    GetSharedModule (Scenario.host false) Scenario.indexNN { file := "com.x.n", uuid := 2 } =
      (Error.success, some ⟨"/KDK1/N.kext/Contents/MacOS/N", 1, true⟩) ∧
    GetSharedModule (Scenario.host false) Scenario.indexNN_swapped { file := "com.x.n", uuid := 2 } =
      (Error.success, some ⟨"/KDK2/N.kext/Contents/MacOS/N", 2, true⟩) :=
  ⟨List.Perm.swap _ _ _, by decide, by decide⟩

/-! ## Indexing -/

/-- The order of the multimap is the order of strings. -/
theorem ConstString_lt_iff (a b : ConstString) : ConstString.lt a b = true ↔ a < b := by
  unfold ConstString.lt
  rw [decide_eq_true_eq]
  exact String.lt_iff_toList_lt.symm

/-- An insertion adds the entry and keeps all others. -/
theorem insert_perm (m : BundleIDToKextMap F) (e : ConstString × F) :
    (m.insert e).Perm (e :: m) := by
  unfold BundleIDToKextMap.insert
  refine List.perm_middle.trans ?_
  rw [List.takeWhile_append_dropWhile]

/-- The entries after the upper bound of a key have greater keys. -/
theorem lt_of_mem_dropWhile (m : BundleIDToKextMap F) (hm : m.KeysAscend) (k : ConstString)
    (b : ConstString × F) (hb : b ∈ m.dropWhile (fun x => !ConstString.lt k x.1)) : k < b.1 := by
  induction m with
  | nil => simp at hb
  | cons y rest ih =>
    unfold BundleIDToKextMap.KeysAscend at hm
    rw [List.pairwise_cons] at hm
    by_cases hy : ConstString.lt k y.1 = true
    · have hd : List.dropWhile (fun x => !ConstString.lt k x.1) (y :: rest) = y :: rest := by
        simp [List.dropWhile, hy]
      rw [hd] at hb
      have hky : k < y.1 := (ConstString_lt_iff k y.1).1 hy
      rcases List.mem_cons.1 hb with rfl | hb'
      · exact hky
      · exact lt_of_lt_of_le hky (hm.1 b hb')
    · have hd : List.dropWhile (fun x => !ConstString.lt k x.1) (y :: rest) =
          List.dropWhile (fun x => !ConstString.lt k x.1) rest := by
        simp [List.dropWhile, hy]
      rw [hd] at hb
      exact ih hm.2 hb

/-- The entries before the upper bound of a key have keys that are not greater. -/
theorem le_of_mem_takeWhile (m : BundleIDToKextMap F) (k : ConstString)
    (a : ConstString × F) (ha : a ∈ m.takeWhile (fun x => !ConstString.lt k x.1)) : a.1 ≤ k := by
  have h := List.mem_takeWhile_imp ha
  simp only [Bool.not_eq_true', ← Bool.not_eq_true] at h
  rw [ConstString_lt_iff] at h
  exact not_lt.1 h

/-- An insertion keeps the keys ascending. -/
theorem insert_keysAscend (m : BundleIDToKextMap F) (hm : m.KeysAscend) (e : ConstString × F) :
    (m.insert e).KeysAscend := by
  unfold BundleIDToKextMap.KeysAscend BundleIDToKextMap.insert
  rw [List.pairwise_append, List.pairwise_cons]
  refine ⟨hm.sublist (List.takeWhile_sublist _),
    ⟨fun b hb => le_of_lt (lt_of_mem_dropWhile m hm e.1 b hb),
      hm.sublist (List.dropWhile_sublist _)⟩, ?_⟩
  intro a ha b hb
  rcases List.mem_cons.1 hb with rfl | hb'
  · exact le_of_mem_takeWhile m b.1 a ha
  · exact le_trans (le_of_mem_takeWhile m e.1 a ha) (le_of_lt (lt_of_mem_dropWhile m hm e.1 b hb'))

/-- An insertion appends the entry to the entries of its key and leaves the
entries of every other key as they are. -/
theorem filter_insert (m : BundleIDToKextMap F) (hm : m.KeysAscend) (e : ConstString × F)
    (k : ConstString) :
    (m.insert e).filter (fun x => decide (x.1 = k)) =
      if e.1 = k then m.filter (fun x => decide (x.1 = k)) ++ [e]
      else m.filter (fun x => decide (x.1 = k)) := by
  have hsplit : m.filter (fun x => decide (x.1 = k)) =
      (m.takeWhile (fun x => !ConstString.lt e.1 x.1)).filter (fun x => decide (x.1 = k)) ++
      (m.dropWhile (fun x => !ConstString.lt e.1 x.1)).filter (fun x => decide (x.1 = k)) := by
    rw [← List.filter_append, List.takeWhile_append_dropWhile]
  unfold BundleIDToKextMap.insert
  rw [List.filter_append, List.filter_cons]
  by_cases hk : e.1 = k
  · have hnil : (m.dropWhile (fun x => !ConstString.lt e.1 x.1)).filter
        (fun x => decide (x.1 = k)) = [] := by
      rw [List.filter_eq_nil_iff]
      intro b hb
      have := lt_of_mem_dropWhile m hm e.1 b hb
      rw [hk] at this
      simpa using (ne_of_lt this).symm
    rw [hsplit, hnil]
    simp [hk]
  · rw [hsplit]
    simp [hk]

/-- One step of the second loop of `IndexKextsInDirectories`. -/
theorem index_cons (host : Host F M) (kext : F) (rest : List F) (m : BundleIDToKextMap F) :
    IndexKextsInDirectories.index host (kext :: rest) m =
      match IndexKextsInDirectories.entry host kext with
      | some e => IndexKextsInDirectories.index host rest (m.insert e)
      | none => IndexKextsInDirectories.index host rest m := by
  unfold IndexKextsInDirectories.entry
  rw [IndexKextsInDirectories.index]
  cases host.GetPath kext with
  | none => rfl
  | some pathbuf =>
    dsimp only
    cases host.GetIdentifier pathbuf <;> rfl

/-- The index holds the entries it held before and one entry for each bundle
whose identifier was obtained. -/
theorem index_perm (host : Host F M) (kext_bundles : List F) (m : BundleIDToKextMap F) :
    (IndexKextsInDirectories.index host kext_bundles m).Perm
      (m ++ kext_bundles.filterMap (IndexKextsInDirectories.entry host)) := by
  induction kext_bundles generalizing m with
  | nil => simp [IndexKextsInDirectories.index]
  | cons kext rest ih =>
    rw [index_cons, List.filterMap_cons]
    cases IndexKextsInDirectories.entry host kext with
    | none => exact ih m
    | some e =>
      refine (ih (m.insert e)).trans ?_
      refine ((insert_perm m e).append_right _).trans ?_
      exact (@List.perm_middle _ e m _).symm

/-- The second loop keeps the keys ascending. -/
theorem index_keysAscend (host : Host F M) (kext_bundles : List F) (m : BundleIDToKextMap F)
    (hm : m.KeysAscend) : (IndexKextsInDirectories.index host kext_bundles m).KeysAscend := by
  induction kext_bundles generalizing m with
  | nil => simpa [IndexKextsInDirectories.index] using hm
  | cons kext rest ih =>
    rw [index_cons]
    cases IndexKextsInDirectories.entry host kext with
    | none => exact ih m hm
    | some e => exact ih _ (insert_keysAscend m hm e)

/-- Under each key the index holds the entries it held before, followed by the
identified bundles of that key in the order of discovery. -/
theorem index_filter (host : Host F M) (kext_bundles : List F) (m : BundleIDToKextMap F)
    (hm : m.KeysAscend) (k : ConstString) :
    (IndexKextsInDirectories.index host kext_bundles m).filter (fun x => decide (x.1 = k)) =
      m.filter (fun x => decide (x.1 = k)) ++
        (kext_bundles.filterMap (IndexKextsInDirectories.entry host)).filter
          (fun x => decide (x.1 = k)) := by
  induction kext_bundles generalizing m with
  | nil => simp [IndexKextsInDirectories.index]
  | cons kext rest ih =>
    rw [index_cons, List.filterMap_cons]
    cases IndexKextsInDirectories.entry host kext with
    | none => exact ih m hm
    | some e =>
      dsimp only
      rw [ih _ (insert_keysAscend m hm e), filter_insert m hm e k, List.filter_cons]
      by_cases hk : e.1 = k <;> simp [hk]

/-- A bundle without obtainable identifier leaves the index as it is. -/
theorem index_append_unidentified (host : Host F M) (before after : List F) (kext : F)
    (m : BundleIDToKextMap F) (h : IndexKextsInDirectories.entry host kext = none) :
    IndexKextsInDirectories.index host (before ++ kext :: after) m =
      IndexKextsInDirectories.index host (before ++ after) m := by
  induction before generalizing m with
  | nil => rw [List.nil_append, List.nil_append, index_cons, h]
  | cons b rest ih =>
    rw [List.cons_append, List.cons_append, index_cons, index_cons]
    cases IndexKextsInDirectories.entry host b with
    | none => exact ih m
    | some e => exact ih _

/-- Claim C5.  For every sequence of discovered bundles, the index that the second
loop of `IndexKextsInDirectories` builds from the empty map holds one entry
`(identifier, bundle)` for each discovered bundle whose identifier is obtained
and none for the others; under each identifier the bundles stand in the order
of discovery, all of them kept; and a bundle whose identifier is not obtained
can be removed from the sequence without changing the index.  The index the
method returns is the one built from the bundles its first loop discovers. -/
theorem IndexKextsInDirectories_index_entries (host : Host F M) (kext_bundles : List F) :
    (IndexKextsInDirectories.index host kext_bundles []).Perm
      (kext_bundles.filterMap (IndexKextsInDirectories.entry host)) ∧
    (∀ k, (IndexKextsInDirectories.index host kext_bundles []).filter (fun x => decide (x.1 = k)) =
      (kext_bundles.filterMap (IndexKextsInDirectories.entry host)).filter
        (fun x => decide (x.1 = k))) ∧
    (∀ before kext after, kext_bundles = before ++ kext :: after →
      IndexKextsInDirectories.entry host kext = none →
      IndexKextsInDirectories.index host (before ++ after) [] =
        IndexKextsInDirectories.index host kext_bundles []) ∧
    (∀ fuel kext_dirs,
      IndexKextsInDirectories.kext_bundles host fuel kext_dirs (some []) = some kext_bundles →
      IndexKextsInDirectories host fuel kext_dirs [] =
        some (IndexKextsInDirectories.index host kext_bundles [])) := by
  refine ⟨?_, fun k => ?_, fun before kext after hsplit hnone => ?_, fun fuel kext_dirs h => ?_⟩
  · simpa using index_perm host kext_bundles []
  · simpa using index_filter host kext_bundles [] List.Pairwise.nil k
  · rw [hsplit]
    exact (index_append_unidentified host before after kext [] hnone).symm
  · simp [IndexKextsInDirectories, h]

/-- Witness of claim C5: five discovered bundles, one of them without identifier and two
sharing the identifier `com.x.n`. -/
theorem IndexKextsInDirectories_index_entries_witness :
    IndexKextsInDirectories.index (Scenario.host true)
        ["/KDK1/N.kext", "/SLE/B.kext", "/SLE/Broken.kext", "/KDK2/N.kext", "/SLE/A.kext"] [] =
      [("com.x.a", "/SLE/A.kext"), ("com.x.b", "/SLE/B.kext"),
       ("com.x.n", "/KDK1/N.kext"), ("com.x.n", "/KDK2/N.kext")] ∧
    IndexKextsInDirectories.index (Scenario.host true)
        (["/KDK1/N.kext", "/SLE/B.kext"] ++ ["/KDK2/N.kext", "/SLE/A.kext"]) [] =
      IndexKextsInDirectories.index (Scenario.host true)
        ["/KDK1/N.kext", "/SLE/B.kext", "/SLE/Broken.kext", "/KDK2/N.kext", "/SLE/A.kext"] [] :=
  ⟨by decide,
   (IndexKextsInDirectories_index_entries (Scenario.host true)
      ["/KDK1/N.kext", "/SLE/B.kext", "/SLE/Broken.kext", "/KDK2/N.kext", "/SLE/A.kext"]).2.2.1
      ["/KDK1/N.kext", "/SLE/B.kext"] "/SLE/Broken.kext" ["/KDK2/N.kext", "/SLE/A.kext"]
      rfl (by decide)⟩

/-! ## Search roots -/

/-- Each of the probing methods appends what `existing_directory` gives for its path. -/
theorem get_directories_eq (host : Host F M) (directories : List F) :
    GetiOSSDKDirectoriesToSearch host directories =
      directories ++ existing_directory host (iOSSDKPath host) ∧
    GetMacSDKDirectoriesToSearch host directories =
      directories ++ existing_directory host (MacSDKPath host) ∧
    GetGenericSDKDirectoriesToSearch host directories =
      directories ++ existing_directory host GenericSDKPath ∧
    GetMacDirectoriesToSearch host directories =
      directories ++ existing_directory host SystemLibraryExtensionsPath ∧
    GetGenericDirectoriesToSearch host directories =
      directories ++ existing_directory host (SymbolsPath host) := by
  unfold GetiOSSDKDirectoriesToSearch GetMacSDKDirectoriesToSearch
    GetGenericSDKDirectoriesToSearch GetMacDirectoriesToSearch GetGenericDirectoriesToSearch
    existing_directory
  refine ⟨?_, ?_, ?_, ?_, ?_⟩ <;> dsimp only <;> split <;> simp

/-- Claim C6.  `SearchForKexts` selects its roots by the classification of the session.
For a constrained-device session the SDK areas are the constrained-device and
the generic one, and `/System/Library/Extensions` is not added; for a desktop
session the SDK areas are the desktop and the generic one; for an unknown
session all three SDK areas and `/System/Library/Extensions` are probed.  The
generic SDK area and the symbols mirror are probed under every classification.
The list stored in `m_directories_searched` holds the bundle roots derived from
the SDK areas first, then the fixed platform root, and the symbols mirror last. -/
theorem SearchForKexts_selects_roots (host : Host F M) :
    SearchForKexts.sdk_dirs host LazyBool.eLazyBoolYes =
      existing_directory host (iOSSDKPath host) ++ existing_directory host GenericSDKPath ∧
    SearchForKexts.sdk_dirs host LazyBool.eLazyBoolNo =
      existing_directory host (MacSDKPath host) ++ existing_directory host GenericSDKPath ∧
    SearchForKexts.sdk_dirs host LazyBool.eLazyBoolCalculate =
      existing_directory host (iOSSDKPath host) ++ existing_directory host (MacSDKPath host) ++
        existing_directory host GenericSDKPath ∧
    SearchForKexts.kext_dirs host LazyBool.eLazyBoolYes =
      SearchSDKsForKextDirectories host (SearchForKexts.sdk_dirs host LazyBool.eLazyBoolYes) [] ++
        existing_directory host (SymbolsPath host) ∧
    SearchForKexts.kext_dirs host LazyBool.eLazyBoolNo =
      SearchSDKsForKextDirectories host (SearchForKexts.sdk_dirs host LazyBool.eLazyBoolNo) [] ++
        existing_directory host SystemLibraryExtensionsPath ++
        existing_directory host (SymbolsPath host) ∧
    SearchForKexts.kext_dirs host LazyBool.eLazyBoolCalculate =
      SearchSDKsForKextDirectories host
          (SearchForKexts.sdk_dirs host LazyBool.eLazyBoolCalculate) [] ++
        existing_directory host SystemLibraryExtensionsPath ++
        existing_directory host (SymbolsPath host) ∧
    (∀ fuel session st, SearchForKexts host fuel session = some st →
      st.m_directories_searched = SearchForKexts.kext_dirs host session) := by
  have h := get_directories_eq host
  refine ⟨?_, ?_, ?_, ?_, ?_, ?_, ?_⟩
  · simp [SearchForKexts.sdk_dirs, (h _).1, (h _).2.2.1]
  · simp [SearchForKexts.sdk_dirs, (h _).2.1, (h _).2.2.1]
  · simp [SearchForKexts.sdk_dirs, (h _).1, (h _).2.1, (h _).2.2.1]
  · simp [SearchForKexts.kext_dirs, GetiOSDirectoriesToSearch, (h _).2.2.2.2]
  · simp [SearchForKexts.kext_dirs, (h _).2.2.2.1, (h _).2.2.2.2]
  · simp [SearchForKexts.kext_dirs, GetiOSDirectoriesToSearch, (h _).2.2.2.1, (h _).2.2.2.2]
  · intro fuel session st hst
    unfold SearchForKexts at hst
    dsimp only at hst
    split at hst
    · cases hst; rfl
    · cases hst

/-- Witness of claim C6: in the second concrete installation with the toolchain
`/Xcode5/Developer`, a constrained-device session selects the constrained-device
and the generic SDK area, and a desktop session the desktop and the generic one. -/
theorem SearchForKexts_selects_roots_witness :
    SearchForKexts.sdk_dirs (Scenario.sdk_host (some "/Xcode5/Developer")) LazyBool.eLazyBoolYes =
      ["/Xcode5/Developer/Platforms/iPhoneOS.platform/Developer/SDKs",
       "/AppleInternal/Developer/KDKs"] ∧
    SearchForKexts.sdk_dirs (Scenario.sdk_host (some "/Xcode5/Developer")) LazyBool.eLazyBoolNo =
      ["/Xcode5/Developer/Platforms/MacOSX.platform/Developer/SDKs",
       "/AppleInternal/Developer/KDKs"] ∧
    SearchForKexts.kext_dirs (Scenario.sdk_host (some "/Xcode5/Developer")) LazyBool.eLazyBoolYes
      = [] ∧
    SearchForKexts.kext_dirs (Scenario.sdk_host (some "/Xcode5/Developer")) LazyBool.eLazyBoolNo
      = ["/System/Library/Extensions"] :=
  ⟨((SearchForKexts_selects_roots (Scenario.sdk_host (some "/Xcode5/Developer"))).1).trans
      (by decide),
   by decide, by decide, by decide⟩

/-- A text that fits the buffer is stored whole. -/
theorem snprintf_of_fits (size : Nat) (t : String) (h : t.length < size) :
    snprintf size t = t := by
  unfold snprintf
  apply String.ext
  show t.data.take (size - 1) = t.data
  apply List.take_of_length_le
  have : t.data.length = t.length := rfl
  omega

/-- Different prefixes before the same suffix give different texts. -/
theorem append_ne_of_ne (a b suffix : String) (h : a ≠ b) : a ++ suffix ≠ b ++ suffix := by
  intro heq
  apply h
  apply String.ext
  have hd : (a ++ suffix).data = (b ++ suffix).data := by rw [heq]
  rw [String.data_append, String.data_append] at hd
  exact List.append_cancel_right hd

/-- Claim C7, as amended.  The candidate paths of the constrained-device and of the
desktop SDK area are formed relative to the toolchain root, the hard-coded
default when the root is unset, and change when the root changes, as long as
they fit the buffer of `PATH_MAX` characters.  The candidate of the generic
SDK area is the fixed path `/AppleInternal/Developer/KDKs`, whatever the
toolchain root.  Each candidate is appended to the list exactly when it exists
and is a directory; otherwise the list is left as it is. -/
theorem sdk_directories_to_search (host host' : Host F M) (directories : List F) :
    (host.GetDeveloperDirectory = none →
      developer_dir host = "/Applications/Xcode.app/Contents/Developer") ∧
    (∀ d, host.GetDeveloperDirectory = some d → developer_dir host = d) ∧
    ((developer_dir host).length + 43 < PATH_MAX →
      iOSSDKPath host = developer_dir host ++ "/Platforms/iPhoneOS.platform/Developer/SDKs" ∧
      MacSDKPath host = developer_dir host ++ "/Platforms/MacOSX.platform/Developer/SDKs") ∧
    ((developer_dir host).length + 43 < PATH_MAX → (developer_dir host').length + 43 < PATH_MAX →
      developer_dir host ≠ developer_dir host' →
      iOSSDKPath host ≠ iOSSDKPath host' ∧ MacSDKPath host ≠ MacSDKPath host') ∧
    (∀ spec, spec = host.mkFileSpec (iOSSDKPath host) true →
      GetiOSSDKDirectoriesToSearch host directories =
        if host.Exists spec = true ∧ host.GetFileType spec = FileType.eFileTypeDirectory
        then directories ++ [spec] else directories) ∧
    (∀ spec, spec = host.mkFileSpec (MacSDKPath host) true →
      GetMacSDKDirectoriesToSearch host directories =
        if host.Exists spec = true ∧ host.GetFileType spec = FileType.eFileTypeDirectory
        then directories ++ [spec] else directories) ∧
    (∀ spec, spec = host.mkFileSpec "/AppleInternal/Developer/KDKs" true →
      GetGenericSDKDirectoriesToSearch host directories =
        if host.Exists spec = true ∧ host.GetFileType spec = FileType.eFileTypeDirectory
        then directories ++ [spec] else directories) := by
  have hlen1 : ∀ d : String,
      (d ++ "/Platforms/iPhoneOS.platform/Developer/SDKs").length = d.length + 43 := by
    intro d; rw [String.length_append]; rfl
  have hlen2 : ∀ d : String,
      (d ++ "/Platforms/MacOSX.platform/Developer/SDKs").length = d.length + 41 := by
    intro d; rw [String.length_append]; rfl
  have hpath : ∀ h : Host F M, (developer_dir h).length + 43 < PATH_MAX →
      iOSSDKPath h = developer_dir h ++ "/Platforms/iPhoneOS.platform/Developer/SDKs" ∧
      MacSDKPath h = developer_dir h ++ "/Platforms/MacOSX.platform/Developer/SDKs" := by
    intro h hfit
    constructor
    · exact snprintf_of_fits _ _ (by rw [hlen1]; exact hfit)
    · exact snprintf_of_fits _ _ (by rw [hlen2]; omega)
  refine ⟨fun hnone => by simp [developer_dir, hnone],
    fun d hd => by simp [developer_dir, hd], hpath host, ?_, ?_, ?_, ?_⟩
  · intro hfit hfit' hne
    rw [(hpath host hfit).1, (hpath host hfit).2, (hpath host' hfit').1, (hpath host' hfit').2]
    exact ⟨append_ne_of_ne _ _ _ hne, append_ne_of_ne _ _ _ hne⟩
  · intro spec hspec
    subst hspec
    simp [GetiOSSDKDirectoriesToSearch, IsExistingDirectory]
  · intro spec hspec
    subst hspec
    simp [GetMacSDKDirectoriesToSearch, IsExistingDirectory]
  · intro spec hspec
    subst hspec
    simp [GetGenericSDKDirectoriesToSearch, GenericSDKPath, IsExistingDirectory]

/-- Witness of claim C7: the second concrete installation, once without configured
toolchain root and once with the root `/Xcode5/Developer`. -/
theorem sdk_directories_to_search_witness :
    iOSSDKPath (Scenario.sdk_host none) ≠ iOSSDKPath (Scenario.sdk_host (some "/Xcode5/Developer")) ∧
    MacSDKPath (Scenario.sdk_host none) ≠ MacSDKPath (Scenario.sdk_host (some "/Xcode5/Developer")) ∧
    GetMacSDKDirectoriesToSearch (Scenario.sdk_host none) [] = [] ∧
    GetMacSDKDirectoriesToSearch (Scenario.sdk_host (some "/Xcode5/Developer")) [] =
      ["/Xcode5/Developer/Platforms/MacOSX.platform/Developer/SDKs"] :=
  ⟨((sdk_directories_to_search (Scenario.sdk_host none)
      (Scenario.sdk_host (some "/Xcode5/Developer")) []).2.2.2.1
      (by decide) (by decide) (by decide)).1,
   by decide, by decide, by decide⟩

/-- Counterexample to claim C7 as stated: the candidate of the generic SDK area does not
change with the toolchain root: without configured root and with the root
`/Xcode5/Developer` the method appends the same directory
`/AppleInternal/Developer/KDKs`, although the two roots differ. -/
theorem generic_sdk_directory_ignores_developer_dir :
    developer_dir (Scenario.sdk_host none) ≠
      developer_dir (Scenario.sdk_host (some "/Xcode5/Developer")) ∧
    GetGenericSDKDirectoriesToSearch (Scenario.sdk_host none) [] =
      ["/AppleInternal/Developer/KDKs"] ∧
    GetGenericSDKDirectoriesToSearch (Scenario.sdk_host (some "/Xcode5/Developer")) [] =
      ["/AppleInternal/Developer/KDKs"] :=
  ⟨by decide, by decide, by decide⟩

end PlatformDarwinKernel

namespace ModuleCache

/-! ## The module cache -/

/-- Reading the store after a write. -/
theorem write_apply (s : Store) (p q : Path) (n : Node) :
    (s.write p n) q = if q = p then some n else s q := rfl

/-- Writing to a path the node it holds already leaves the store as it is. -/
theorem write_same (s : Store) (p : Path) (n : Node) (h : s p = some n) : s.write p n = s := by
  funext q
  rw [write_apply]
  split
  · rename_i hq; rw [hq, h]
  · rfl

/-- A path is not among its own parents. -/
theorem not_mem_parents (p : Path) : p ∉ parents p := by
  intro h
  unfold parents at h
  obtain ⟨i, hi, hp⟩ := List.mem_map.1 h
  have hlen : (p.take i).length = p.length := by rw [hp]
  rw [List.length_take] at hlen
  have := List.mem_range.1 hi
  omega

/-- Directory creation changes the store only at absent paths, which become directories. -/
theorem makeDirectories_apply (s s' : Store) (ds : List Path)
    (h : MakeDirectories s ds = some s') (p : Path) :
    s' p = s p ∨ (s p = none ∧ s' p = some Node.directory) := by
  induction ds generalizing s with
  | nil =>
    simp only [MakeDirectories, Option.some.injEq] at h
    subst h; exact Or.inl rfl
  | cons d ds ih =>
    rw [MakeDirectories] at h
    split at h
    · rename_i hd
      rcases ih _ h with h1 | ⟨h1, h2⟩
      · rw [write_apply] at h1
        by_cases hp : p = d
        · rw [if_pos hp] at h1
          exact Or.inr ⟨by rw [hp]; exact hd, h1⟩
        · rw [if_neg hp] at h1
          exact Or.inl h1
      · rw [write_apply] at h1
        by_cases hp : p = d
        · rw [if_pos hp] at h1; cases h1
        · rw [if_neg hp] at h1
          exact Or.inr ⟨h1, h2⟩
    · exact ih _ h
    · cases h

/-- Directory creation leaves every node of the store in place. -/
theorem makeDirectories_keeps (s s' : Store) (ds : List Path)
    (h : MakeDirectories s ds = some s') (p : Path) (n : Node) (hp : s p = some n) :
    s' p = some n := by
  rcases makeDirectories_apply s s' ds h p with h1 | ⟨h1, -⟩
  · rw [h1, hp]
  · rw [hp] at h1; cases h1

/-- After directory creation every listed path holds a directory. -/
theorem makeDirectories_directories (s s' : Store) (ds : List Path)
    (h : MakeDirectories s ds = some s') : ∀ d ∈ ds, s' d = some Node.directory := by
  induction ds generalizing s with
  | nil => intro d hd; cases hd
  | cons d ds ih =>
    intro x hx
    rw [MakeDirectories] at h
    split at h
    · rcases List.mem_cons.1 hx with rfl | hx'
      · exact makeDirectories_keeps _ s' ds h x Node.directory (by rw [write_apply, if_pos rfl])
      · exact ih _ h x hx'
    · rename_i hd
      rcases List.mem_cons.1 hx with rfl | hx'
      · exact makeDirectories_keeps _ s' ds h x Node.directory hd
      · exact ih _ h x hx'
    · cases h

/-- Directory creation over existing directories succeeds and changes nothing. -/
theorem makeDirectories_of_directories (s : Store) (ds : List Path)
    (h : ∀ d ∈ ds, s d = some Node.directory) : MakeDirectories s ds = some s := by
  induction ds with
  | nil => rfl
  | cons d ds ih =>
    rw [MakeDirectories, h d (List.mem_cons_self _ _)]
    exact ih (fun x hx => h x (List.mem_cons_of_mem _ hx))

/-- A successful creation of the mirror indirection over a populated canonical
path keeps the canonical file, leaves the indirection pointing at it, and is
repeated without error and without change. -/
theorem createSymLink_ok (s : Store) (mirror canonical : Path) (content : List Nat)
    (hcanon : s canonical = some (Node.file content))
    (hok : (CreateHostSysRootModuleSymLink s mirror canonical).1 = Except.ok ()) :
    (CreateHostSysRootModuleSymLink s mirror canonical).2 canonical = some (Node.file content) ∧
    (CreateHostSysRootModuleSymLink s mirror canonical).2 mirror =
      some (Node.symlink canonical) ∧
    CreateHostSysRootModuleSymLink (CreateHostSysRootModuleSymLink s mirror canonical).2
        mirror canonical =
      (Except.ok (), (CreateHostSysRootModuleSymLink s mirror canonical).2) := by
  unfold CreateHostSysRootModuleSymLink at hok ⊢
  cases hmk : MakeDirectories s (parents mirror) with
  | none => rw [hmk] at hok; cases hok
  | some s1 =>
    rw [hmk] at hok
    have hc1 : s1 canonical = some (Node.file content) :=
      makeDirectories_keeps s s1 _ hmk canonical _ hcanon
    have hdirs := makeDirectories_directories s s1 _ hmk
    have key : ∀ (hne : mirror ≠ canonical),
        (s1.write mirror (Node.symlink canonical)) canonical = some (Node.file content) ∧
        (s1.write mirror (Node.symlink canonical)) mirror = some (Node.symlink canonical) ∧
        (match MakeDirectories (s1.write mirror (Node.symlink canonical)) (parents mirror) with
          | none => (Except.error CacheError.IOError, s1.write mirror (Node.symlink canonical))
          | some s2 =>
            match s2 mirror with
            | none => (Except.ok (), s2.write mirror (Node.symlink canonical))
            | some (Node.symlink _) => (Except.ok (), s2.write mirror (Node.symlink canonical))
            | some _ => (Except.error CacheError.IOError, s2)) =
          (Except.ok (), s1.write mirror (Node.symlink canonical)) := by
      intro hne
      have hm : (s1.write mirror (Node.symlink canonical)) mirror =
          some (Node.symlink canonical) := by rw [write_apply, if_pos rfl]
      refine ⟨by rw [write_apply, if_neg (Ne.symm hne), hc1], hm, ?_⟩
      rw [makeDirectories_of_directories]
      · simp only [hm]
        rw [write_same _ _ _ hm]
      · intro d hd
        have hdm : d ≠ mirror := fun h => not_mem_parents mirror (h ▸ hd)
        rw [write_apply, if_neg hdm]
        exact hdirs d hd
    cases hm1 : s1 mirror with
    | none =>
      have hne : mirror ≠ canonical := by
        intro h; rw [h, hc1] at hm1; cases hm1
      simp only [hm1]
      exact key hne
    | some n =>
      cases n with
      | file c => simp only [hm1] at hok; cases hok
      | directory => simp only [hm1] at hok; cases hok
      | symlink t =>
        have hne : mirror ≠ canonical := by
          intro h; rw [h, hc1] at hm1; cases hm1
        simp only [hm1]
        exact key hne

/-- A successful `Put` ends in the creation of the mirror indirection over a
store whose canonical path holds a file: the file that was there, or else a
copy of the source file. -/
theorem put_ok (sv : Services) (root : Path) (hostname : String) (spec : ModuleSpec Path)
    (tmp_file : Path) (s : Store)
    (hok : (Put sv root hostname spec tmp_file s).1 = Except.ok ()) :
    ∃ s0 content,
      s0 (GetModuleFilePath sv root spec) = some (Node.file content) ∧
      Put sv root hostname spec tmp_file s =
        CreateHostSysRootModuleSymLink s0 (GetHostSysRootModulePath root hostname spec.file)
          (GetModuleFilePath sv root spec) ∧
      (s (GetModuleFilePath sv root spec) = none → s tmp_file = some (Node.file content)) ∧
      (∀ n, s (GetModuleFilePath sv root spec) = some n → n = Node.file content) := by
  unfold Put at hok ⊢
  dsimp only at hok ⊢
  cases hc : s (GetModuleFilePath sv root spec) with
  | some n =>
    cases n with
    | file c =>
      exact ⟨s, c, hc, rfl, fun h => (by cases h), fun n hn => (by cases hn; rfl)⟩
    | directory => simp only [hc] at hok; cases hok
    | symlink t => simp only [hc] at hok; cases hok
  | none =>
    simp only [hc] at hok ⊢
    cases ht : s tmp_file with
    | none => simp only [ht] at hok; cases hok
    | some n =>
      cases n with
      | directory => simp only [ht] at hok; cases hok
      | symlink t => simp only [ht] at hok; cases hok
      | file content =>
        simp only [ht] at hok ⊢
        cases hmk : MakeDirectories s (parents (GetModuleFilePath sv root spec)) with
        | none => simp only [hmk] at hok; cases hok
        | some s1 =>
          refine ⟨s1.write (GetModuleFilePath sv root spec) (Node.file content), content,
            by rw [write_apply, if_pos rfl], rfl, fun _ => rfl, fun n hn => (by cases hn)⟩

/-- Claim C8.  `Put` is idempotent: after a `Put` that returned no error, a second `Put`
with the same arguments returns no error and leaves the store exactly as the
first left it, with a regular file at the canonical path of the fingerprint and
a mirror indirection that points at it. -/
theorem Put_idempotent (sv : Services) (root : Path) (hostname : String)
    (spec : ModuleSpec Path) (tmp_file : Path) (s : Store)
    (hok : (Put sv root hostname spec tmp_file s).1 = Except.ok ()) :
    Put sv root hostname spec tmp_file (Put sv root hostname spec tmp_file s).2 =
      (Except.ok (), (Put sv root hostname spec tmp_file s).2) ∧
    (∃ content, (Put sv root hostname spec tmp_file s).2 (GetModuleFilePath sv root spec) =
      some (Node.file content)) ∧
    (Put sv root hostname spec tmp_file s).2 (GetHostSysRootModulePath root hostname spec.file) =
      some (Node.symlink (GetModuleFilePath sv root spec)) := by
  obtain ⟨s0, content, hs0, hput, -, -⟩ := put_ok sv root hostname spec tmp_file s hok
  rw [hput] at hok
  obtain ⟨h1, h2, h3⟩ := createSymLink_ok s0 _ _ content hs0 hok
  rw [hput]
  refine ⟨?_, ⟨content, h1⟩, h2⟩
  rw [Put]
  rw [h1]
  exact h3

/-- Witness of claim C8: the module `/lib/libc.so.6` with fingerprint 2 put from the
downloaded file `/tmp/dl` for the host `ubuntu` into the cache `/cache`. -/
theorem Put_idempotent_witness :
    (Put Scenario.services ["cache"] "ubuntu" Scenario.libc ["tmp", "dl"] Scenario.store).1 =
      Except.ok () ∧
    (Put Scenario.services ["cache"] "ubuntu" Scenario.libc ["tmp", "dl"]
      (Put Scenario.services ["cache"] "ubuntu" Scenario.libc ["tmp", "dl"] Scenario.store).2).1 =
      Except.ok () ∧
    (Put Scenario.services ["cache"] "ubuntu" Scenario.libc ["tmp", "dl"] Scenario.store).2
      ["cache", "ubuntu", "lib", "libc.so.6"] =
        some (Node.symlink ["cache", ".cache", "FF", "libc.so.6"]) :=
  ⟨by decide,
   congrArg Prod.fst (Put_idempotent Scenario.services ["cache"] "ubuntu" Scenario.libc
      ["tmp", "dl"] Scenario.store (by decide)).1,
   by decide⟩

/-- Claim C10, as amended.  For a fixed cache root, the canonical directory of a module
is a function of the fingerprint only, and the canonical file is that directory
followed by the file name of the module: identities with the same fingerprint
and file name have the same canonical path whatever the host name and the
directory of the logical path, and, the textual form of fingerprints being
one-to-one, distinct fingerprints give distinct canonical directories and
distinct canonical paths.  The mirror path is the cache root followed by the
host name and the original path. -/
theorem canonical_and_mirror_paths (sv : Services) (hinj : Function.Injective sv.GetAsString)
    (root : Path) (hostname : String) (spec spec' : ModuleSpec Path) :
    GetModuleFilePath sv root spec =
      GetModuleDirectory sv root spec.uuid ++ [GetFilename spec.file] ∧
    (spec.uuid = spec'.uuid → GetFilename spec.file = GetFilename spec'.file →
      GetModuleFilePath sv root spec = GetModuleFilePath sv root spec') ∧
    (spec.uuid ≠ spec'.uuid →
      GetModuleDirectory sv root spec.uuid ≠ GetModuleDirectory sv root spec'.uuid ∧
      GetModuleFilePath sv root spec ≠ GetModuleFilePath sv root spec') ∧
    GetHostSysRootModulePath root hostname spec.file = root ++ hostname :: spec.file := by
  refine ⟨rfl, fun hu hf => ?_, fun hne => ⟨fun h => ?_, fun h => ?_⟩, ?_⟩
  · unfold GetModuleFilePath
    rw [hu, hf]
  · unfold GetModuleDirectory at h
    have h' := List.append_cancel_left h
    simp only [List.cons.injEq, and_true, true_and] at h'
    exact hne (hinj h')
  · unfold GetModuleFilePath GetModuleDirectory at h
    rw [List.append_assoc, List.append_assoc] at h
    have h' := List.append_cancel_left h
    simp only [List.cons_append, List.nil_append, List.cons.injEq, and_true, true_and] at h'
    exact hne (hinj h'.1)
  · simp [GetHostSysRootModulePath]

/-- Witness of claim C10: the fingerprints 2 and 3 of two modules named `libc.so.6` in
the cache `/cache`. -/
theorem canonical_and_mirror_paths_witness :
    Function.Injective Scenario.services.GetAsString ∧
    GetModuleFilePath Scenario.services ["cache"] Scenario.libc ≠
      GetModuleFilePath Scenario.services ["cache"] { file := ["lib", "libc.so.6"], uuid := 3 } :=
  have hinj : Function.Injective Scenario.services.GetAsString := by
    intro a b h
    have h' : List.replicate a 'F' = List.replicate b 'F' := congrArg String.data h
    have h'' := congrArg List.length h'
    simpa using h''
  ⟨hinj,
   ((canonical_and_mirror_paths Scenario.services hinj ["cache"] "ubuntu" Scenario.libc
      { file := ["lib", "libc.so.6"], uuid := 3 }).2.2.1 (by decide)).2⟩

/-- Counterexample to claim C10 as stated: two identities with the same fingerprint and
different file names have different canonical paths under the same cache root. -/
theorem canonical_path_depends_on_file_name :
    Scenario.libc.uuid = 2 ∧
    GetModuleFilePath Scenario.services ["cache"] Scenario.libc =
      ["cache", ".cache", "FF", "libc.so.6"] ∧
    GetModuleFilePath Scenario.services ["cache"] { file := ["lib", "libc-2.19.so"], uuid := 2 } =
      ["cache", ".cache", "FF", "libc-2.19.so"] ∧
    GetModuleFilePath Scenario.services ["cache"] Scenario.libc ≠
      GetModuleFilePath Scenario.services ["cache"]
        { file := ["lib", "libc-2.19.so"], uuid := 2 } :=
  ⟨rfl, by decide, by decide, by decide⟩

end ModuleCache

namespace PlatformDarwinKernel

variable {F M : Type}

/-! ## Order of examination -/

/-- What `ExamineKextForMatchingUUID` skips: a bundle whose executable does not
exist, or for which the loading service yields no module with an object file. -/
theorem examine_snd_none_iff (host : Host F M) (kext : F) (uuid : UUID) :
    (ExamineKextForMatchingUUID host kext uuid).2 = none ↔
      (host.Exists (host.ResolveExecutableInBundle kext) = false ∨
        ∀ m, (host.ModuleList_GetSharedModule
          { file := host.ResolveExecutableInBundle kext, uuid := uuid }).2 = some m →
          host.GetObjectFile m = false) := by
  unfold ExamineKextForMatchingUUID
  dsimp only
  cases hex : host.Exists (host.ResolveExecutableInBundle kext) with
  | false => simp
  | true =>
    rcases hl : host.ModuleList_GetSharedModule
      { file := host.ResolveExecutableInBundle kext, uuid := uuid } with ⟨e', o⟩
    cases o with
    | none => simp
    | some m' =>
      dsimp only
      cases ho : host.GetObjectFile m' with
      | false => simp [ho]
      | true => simp [ho]

/-- The loop examines the candidates under the key in index order and stops at
the first that yields a module, which it returns. -/
theorem loop_examined_of_first (host : Host F M) (cs : ConstString) (uuid : UUID)
    (entries : List (ConstString × F)) (error e : Error) (m : M) (pre post : List F) (kext : F)
    (hsplit : (entries.filter (fun x => decide (x.1 = cs))).map Prod.snd = pre ++ kext :: post)
    (hpre : ∀ k ∈ pre, (ExamineKextForMatchingUUID host k uuid).2 = none)
    (hkext : ExamineKextForMatchingUUID host kext uuid = (e, some m)) :
    GetSharedModule.loop_examined host cs uuid entries = pre ++ [kext] ∧
      GetSharedModule.loop host cs uuid entries error = (e, some m) := by
  induction entries generalizing pre error with
  | nil => simp at hsplit
  | cons x rest ih =>
    by_cases hx : x.1 = cs
    · rw [List.filter_cons_of_pos (by simpa using hx), List.map_cons] at hsplit
      cases pre with
      | nil =>
        rw [List.nil_append] at hsplit
        have hxk : x.2 = kext := (List.cons.inj hsplit).1
        simp [GetSharedModule.loop_examined, GetSharedModule.loop, hx, hxk, hkext]
      | cons p pre' =>
        rw [List.cons_append] at hsplit
        have hxp : x.2 = p := (List.cons.inj hsplit).1
        have hrest := (List.cons.inj hsplit).2
        have hp : (ExamineKextForMatchingUUID host x.2 uuid).2 = none := by
          rw [hxp]; exact hpre p (List.mem_cons_self _ _)
        obtain ⟨h1, h2⟩ := ih (ExamineKextForMatchingUUID host x.2 uuid).1 pre' hrest
          (fun k hk => hpre k (List.mem_cons_of_mem _ hk))
        simp only [GetSharedModule.loop_examined, GetSharedModule.loop, hx, if_true, hp]
        exact ⟨by rw [h1, hxp]; rfl, h2⟩
    · rw [List.filter_cons_of_neg (by simpa using hx)] at hsplit
      obtain ⟨h1, h2⟩ := ih error pre hsplit hpre
      simp only [GetSharedModule.loop_examined, GetSharedModule.loop, hx, if_false]
      exact ⟨h1, h2⟩

/-- When every candidate under the key is skipped, the loop examines them all,
in index order. -/
theorem loop_examined_of_all_skipped (host : Host F M) (cs : ConstString) (uuid : UUID)
    (entries : List (ConstString × F))
    (hall : ∀ k ∈ (entries.filter (fun x => decide (x.1 = cs))).map Prod.snd,
      (ExamineKextForMatchingUUID host k uuid).2 = none) :
    GetSharedModule.loop_examined host cs uuid entries =
      (entries.filter (fun x => decide (x.1 = cs))).map Prod.snd := by
  induction entries with
  | nil => rfl
  | cons x rest ih =>
    by_cases hx : x.1 = cs
    · rw [List.filter_cons_of_pos (by simpa using hx), List.map_cons] at hall ⊢
      have hp := hall x.2 (List.mem_cons_self _ _)
      simp only [GetSharedModule.loop_examined, hx, if_true, hp]
      rw [ih (fun k hk => hall k (List.mem_cons_of_mem _ hk))]
    · rw [List.filter_cons_of_neg (by simpa using hx)] at hall ⊢
      simp only [GetSharedModule.loop_examined, hx, if_false]
      exact ih hall

/-- The check `count (kext_bundle_cs) > 0` does not change what is examined. -/
theorem examined_eq_loop_examined (host : Host F M) (map : BundleIDToKextMap F)
    (spec : ModuleSpec F) (id : String) (hid : host.GetPath spec.file = some id) :
    GetSharedModule.examined host map spec =
      GetSharedModule.loop_examined host id spec.uuid map := by
  unfold GetSharedModule.examined
  rw [hid]
  by_cases hc : map.count id > 0
  · simp [hc]
  · have h0 : map.count id = 0 := by omega
    simp only [hc, if_false]
    have hnil : map.filter (fun x => decide (x.1 = id)) = [] := by
      unfold BundleIDToKextMap.count at h0
      exact List.length_eq_zero.1 h0
    rw [loop_examined_of_all_skipped host id spec.uuid map (by simp [hnil]), hnil]
    rfl

/-- Claim C11.  `GetSharedModule` examines the index entries whose key is the
requested identifier, in index order.  A candidate is skipped exactly when its
executable does not exist or the loading service yields no module with an
object file for it; when all candidates are skipped all are examined and no
module is returned; and at the first candidate that yields a module the
examination ends: that module is returned with its error and no later
candidate is examined. -/
theorem GetSharedModule_examines_in_index_order (host : Host F M)
    (map : BundleIDToKextMap F) (spec : ModuleSpec F) (id : String)
    (hid : host.GetPath spec.file = some id) :
    (∀ kext, (ExamineKextForMatchingUUID host kext spec.uuid).2 = none ↔
      (host.Exists (host.ResolveExecutableInBundle kext) = false ∨
        ∀ m, (host.ModuleList_GetSharedModule
          { file := host.ResolveExecutableInBundle kext, uuid := spec.uuid }).2 = some m →
          host.GetObjectFile m = false)) ∧
    ((∀ k ∈ (map.filter (fun x => decide (x.1 = id))).map Prod.snd,
        (ExamineKextForMatchingUUID host k spec.uuid).2 = none) →
      GetSharedModule.examined host map spec =
          (map.filter (fun x => decide (x.1 = id))).map Prod.snd ∧
        (GetSharedModule host map spec).2 = none) ∧
    (∀ pre kext post e m,
      (map.filter (fun x => decide (x.1 = id))).map Prod.snd = pre ++ kext :: post →
      (∀ k ∈ pre, (ExamineKextForMatchingUUID host k spec.uuid).2 = none) →
      ExamineKextForMatchingUUID host kext spec.uuid = (e, some m) →
      GetSharedModule.examined host map spec = pre ++ [kext] ∧
        GetSharedModule host map spec = (e, some m)) := by
  rw [examined_eq_loop_examined host map spec id hid, GetSharedModule_eq_loop host map spec id hid]
  refine ⟨fun kext => examine_snd_none_iff host kext spec.uuid, fun hall => ⟨?_, ?_⟩,
    fun pre kext post e m hsplit hpre hkext =>
      loop_examined_of_first host id spec.uuid map Error.success e m pre post kext
        hsplit hpre hkext⟩
  · exact loop_examined_of_all_skipped host id spec.uuid map hall
  · apply loop_of_all_skipped
    intro kext hmem
    apply hall
    exact List.mem_map.2 ⟨(id, kext), List.mem_filter.2 ⟨hmem, by simp⟩, rfl⟩

/-- Witness of claim C11: two bundles under `com.x.n`; the request for fingerprint 1
is answered by the first, and the second is not examined. -/
theorem GetSharedModule_examines_in_index_order_witness :
    (Scenario.host true).GetPath "com.x.n" = some "com.x.n" ∧
    GetSharedModule.examined (Scenario.host true) Scenario.indexNN
      { file := "com.x.n", uuid := 1 } = ["/KDK1/N.kext"] ∧
    GetSharedModule (Scenario.host true) Scenario.indexNN { file := "com.x.n", uuid := 1 } =
      (Error.success, some ⟨"/KDK1/N.kext/Contents/MacOS/N", 1, true⟩) :=
  ⟨by decide,
   (GetSharedModule_examines_in_index_order (Scenario.host true) Scenario.indexNN
      { file := "com.x.n", uuid := 1 } "com.x.n" (by decide)).2.2
      [] "/KDK1/N.kext" ["/KDK2/N.kext"] Error.success ⟨"/KDK1/N.kext/Contents/MacOS/N", 1, true⟩
      (by decide) (by intro k hk; cases hk) (by decide)⟩

/-! ## Creation -/

/-- The callback appends the contribution of the entry it is given. -/
theorem GetKextDirectoriesInSDK_eq (host : Host F M) (baton : List F) (file_type : FileType)
    (file_spec : F) :
    GetKextDirectoriesInSDK host baton file_type file_spec =
      baton ++ sdk_contribution host (file_type, file_spec) := by
  have hstr : ∀ pathbuf : String,
      pathbuf ++ "/" ++ "System/Library/Extensions" = pathbuf ++ "/System/Library/Extensions" := by
    intro pathbuf
    rw [String.append_assoc]
    rfl
  unfold GetKextDirectoriesInSDK sdk_contribution existing_directory
  dsimp only
  split
  · cases host.GetPath file_spec with
    | none => simp
    | some pathbuf =>
      dsimp only
      rw [hstr]
      split <;> simp
  · simp

/-- A fold of the callback over entries appends their contributions in order. -/
theorem foldl_GetKextDirectoriesInSDK (host : Host F M) (entries : List (FileType × F))
    (baton : List F) :
    entries.foldl (fun b e => GetKextDirectoriesInSDK host b e.1 e.2) baton =
      baton ++ (entries.map (sdk_contribution host)).flatten := by
  induction entries generalizing baton with
  | nil => simp
  | cons e rest ih =>
    rw [List.foldl_cons, ih, GetKextDirectoriesInSDK_eq, List.map_cons, List.flatten_cons,
      List.append_assoc]

/-- An entry that the enumeration does not report as a directory contributes nothing. -/
theorem sdk_contribution_of_not_directory (host : Host F M) (entry : FileType × F)
    (h : entry.1 ≠ FileType.eFileTypeDirectory) : sdk_contribution host entry = [] := by
  unfold sdk_contribution
  rw [if_neg (fun hc => h hc.1)]

/-- The enumeration of an SDK area appends the contributions of all its entries. -/
theorem EnumerateDirectory_GetKextDirectoriesInSDK (host : Host F M) (pathbuf : String)
    (kext_dirs : List F) :
    EnumerateDirectory host pathbuf true false false (GetKextDirectoriesInSDK host) kext_dirs =
      kext_dirs ++ ((host.ReadDirectory pathbuf).map (sdk_contribution host)).flatten := by
  unfold EnumerateDirectory
  rw [foldl_GetKextDirectoriesInSDK]
  congr 1
  induction host.ReadDirectory pathbuf with
  | nil => rfl
  | cons e rest ih =>
    by_cases he : e.1 = FileType.eFileTypeDirectory
    · rw [List.filter_cons_of_pos (by rw [he]), List.map_cons, List.map_cons,
        List.flatten_cons, List.flatten_cons, ih]
    · have hf : (match e.1 with
          | FileType.eFileTypeDirectory => true
          | FileType.eFileTypeRegular => false
          | _ => false) = false := by
        cases h1 : e.1 <;> simp_all
      rw [List.filter_cons_of_neg (by rw [hf]; simp), List.map_cons, List.flatten_cons,
        sdk_contribution_of_not_directory host e he, List.nil_append, ih]

/-- The expansion appends the contributions of the SDK areas in the order of the areas. -/
theorem SearchSDKsForKextDirectories_eq (host : Host F M) (sdk_dirs kext_dirs : List F) :
    SearchSDKsForKextDirectories host sdk_dirs kext_dirs =
      kext_dirs ++ (sdk_dirs.map (sdk_area_contribution host)).flatten := by
  induction sdk_dirs generalizing kext_dirs with
  | nil => simp [SearchSDKsForKextDirectories]
  | cons d rest ih =>
    rw [SearchSDKsForKextDirectories, List.map_cons, List.flatten_cons]
    unfold sdk_area_contribution
    cases host.GetPath d with
    | none => simp only [List.nil_append]; exact ih kext_dirs
    | some pathbuf =>
      dsimp only
      rw [ih, EnumerateDirectory_GetKextDirectoriesInSDK, List.append_assoc]
      rfl

/-- Claim C14.  For every list of SDK areas, the expansion appends to the bundle roots
the contributions of the areas in area order, each area contributing those of
its entries in enumeration order.  An entry contributes the bundle root
`System/Library/Extensions` below it exactly when it is a directory whose name
extension is `sdk` or `kdk` and that bundle root exists as a directory, and
nothing otherwise; only the entries of the areas themselves are read.  Nothing
is deduplicated: a list of areas given twice contributes twice. -/
theorem SearchSDKsForKextDirectories_contributions (host : Host F M)
    (sdk_dirs kext_dirs : List F) :
    SearchSDKsForKextDirectories host sdk_dirs kext_dirs =
      kext_dirs ++ (sdk_dirs.map (sdk_area_contribution host)).flatten ∧
    (∀ sdk_dir pathbuf, host.GetPath sdk_dir = some pathbuf →
      sdk_area_contribution host sdk_dir =
        ((host.ReadDirectory pathbuf).map (sdk_contribution host)).flatten) ∧
    (∀ file_type e path, host.GetPath e = some path →
      (file_type = FileType.eFileTypeDirectory ∧
        (host.GetFileNameExtension e = "sdk" ∨ host.GetFileNameExtension e = "kdk") ∧
        host.Exists (host.mkFileSpec
          (snprintf PATH_MAX (path ++ "/System/Library/Extensions")) true) = true ∧
        host.GetFileType (host.mkFileSpec
          (snprintf PATH_MAX (path ++ "/System/Library/Extensions")) true) =
            FileType.eFileTypeDirectory →
        sdk_contribution host (file_type, e) =
          [host.mkFileSpec (snprintf PATH_MAX (path ++ "/System/Library/Extensions")) true]) ∧
      (¬ (file_type = FileType.eFileTypeDirectory ∧
        (host.GetFileNameExtension e = "sdk" ∨ host.GetFileNameExtension e = "kdk") ∧
        host.Exists (host.mkFileSpec
          (snprintf PATH_MAX (path ++ "/System/Library/Extensions")) true) = true ∧
        host.GetFileType (host.mkFileSpec
          (snprintf PATH_MAX (path ++ "/System/Library/Extensions")) true) =
            FileType.eFileTypeDirectory) →
        sdk_contribution host (file_type, e) = []) ∧
      (path.length + 26 < PATH_MAX →
        snprintf PATH_MAX (path ++ "/System/Library/Extensions") =
          path ++ "/System/Library/Extensions")) ∧
    SearchSDKsForKextDirectories host (sdk_dirs ++ sdk_dirs) [] =
      SearchSDKsForKextDirectories host sdk_dirs [] ++
        SearchSDKsForKextDirectories host sdk_dirs [] := by
  refine ⟨SearchSDKsForKextDirectories_eq host sdk_dirs kext_dirs, ?_, ?_, ?_⟩
  · intro sdk_dir pathbuf h
    simp [sdk_area_contribution, h]
  · intro file_type e path hpath
    refine ⟨?_, ?_, ?_⟩
    · rintro ⟨h1, h2, h3, h4⟩
      simp [sdk_contribution, existing_directory, IsExistingDirectory, h1, h2, h3, h4, hpath]
    · intro hnot
      unfold sdk_contribution existing_directory IsExistingDirectory
      by_cases hc : file_type = FileType.eFileTypeDirectory ∧
          (host.GetFileNameExtension e = "sdk" ∨ host.GetFileNameExtension e = "kdk")
      · simp only [hc, and_self, if_true, hpath]
        have hne : ¬ (host.Exists (host.mkFileSpec
              (snprintf PATH_MAX (path ++ "/System/Library/Extensions")) true) = true ∧
            host.GetFileType (host.mkFileSpec
              (snprintf PATH_MAX (path ++ "/System/Library/Extensions")) true) =
                FileType.eFileTypeDirectory) :=
          fun h => hnot ⟨hc.1, hc.2, h.1, h.2⟩
        simp only [Bool.and_eq_true, decide_eq_true_eq, hne, if_false]
      · simp only [hc, if_false]
    · intro hfit
      apply snprintf_of_fits
      rw [String.length_append]
      have : "/System/Library/Extensions".length = 26 := by decide
      omega
  · rw [SearchSDKsForKextDirectories_eq, SearchSDKsForKextDirectories_eq, List.map_append,
      List.flatten_append]
    simp

/-- Witness of claim C14: the SDK area `/SDKs` of the third concrete installation,
listed twice; only the SDK with a bundle root contributes, once per listing. -/
theorem SearchSDKsForKextDirectories_contributions_witness :
    Scenario.tree_host.GetPath "/SDKs/MacOSX10.8.sdk" = some "/SDKs/MacOSX10.8.sdk" ∧
    sdk_contribution Scenario.tree_host (FileType.eFileTypeDirectory, "/SDKs/MacOSX10.8.sdk") =
      ["/SDKs/MacOSX10.8.sdk/System/Library/Extensions"] ∧
    SearchSDKsForKextDirectories Scenario.tree_host ["/SDKs", "/SDKs"] [] =
      ["/SDKs/MacOSX10.8.sdk/System/Library/Extensions",
       "/SDKs/MacOSX10.8.sdk/System/Library/Extensions"] :=
  ⟨by decide,
   ((SearchSDKsForKextDirectories_contributions Scenario.tree_host ["/SDKs"] []).2.2.1
      FileType.eFileTypeDirectory "/SDKs/MacOSX10.8.sdk" "/SDKs/MacOSX10.8.sdk"
      (by decide)).1 (by decide),
   by decide⟩

/-! ## Bundle discovery -/

/-- The callback gives up on a baton that is lost already. -/
theorem GetKextsInDirectory_none (host : Host F M) (fuel : Nat) (file_type : FileType)
    (file_spec : F) : GetKextsInDirectory host fuel none file_type file_spec = none := by
  cases fuel <;> rfl

/-- One step of the callback: an entry that is not marked as a bundle is passed
over; a bundle is recorded and its plugin area, if it has one, is enumerated
with the same callback. -/
theorem GetKextsInDirectory_succ (host : Host F M) (fuel : Nat) (baton : List F)
    (file_type : FileType) (file_spec : F) :
    GetKextsInDirectory host (fuel + 1) (some baton) file_type file_spec =
      if is_kext_directory host file_type file_spec = true then
        match plugin_area host file_spec with
        | some path =>
          EnumerateDirectory host path true false false (GetKextsInDirectory host fuel)
            (some (baton ++ [file_spec]))
        | none => some (baton ++ [file_spec])
      else some baton := by
  rw [GetKextsInDirectory]
  unfold is_kext_directory plugin_area
  dsimp only
  by_cases hk : file_type = FileType.eFileTypeDirectory ∧
      host.GetFileNameExtension file_spec = "kext"
  · have hk' : (decide (file_type = FileType.eFileTypeDirectory) &&
        decide (host.GetFileNameExtension file_spec = "kext")) = true := by
      simp [hk.1, hk.2]
    rw [if_pos hk, if_pos hk']
    by_cases h1 : IsExistingDirectory host (host.mkFileSpec (snprintf PATH_MAX
        (host.GetDirectory file_spec ++ "/" ++ host.GetFilename file_spec ++ "/Contents/PlugIns"))
        false) = true
    · simp only [if_pos h1]
    · by_cases h2 : IsExistingDirectory host (host.mkFileSpec (snprintf PATH_MAX
          (host.GetDirectory file_spec ++ "/" ++ host.GetFilename file_spec ++ "/PlugIns"))
          false) = true
      · simp only [if_neg h1, if_pos h2]
      · simp only [if_neg h1, if_neg h2]
  · have hk' : ¬ (decide (file_type = FileType.eFileTypeDirectory) &&
        decide (host.GetFileNameExtension file_spec = "kext")) = true := by
      simp only [Bool.and_eq_true, decide_eq_true_eq]
      exact hk
    rw [if_neg hk, if_neg hk']

/-- A fold of a callback that gives up on a lost baton stays lost. -/
theorem foldl_none {α : Type} (cb : Option (List F) → α → Option (List F))
    (hnone : ∀ e, cb none e = none) (entries : List α) : entries.foldl cb none = none := by
  induction entries with
  | nil => rfl
  | cons e rest ih => rw [List.foldl_cons, hnone, ih]

/-- A fold of a callback that only appends bundles only appends bundles. -/
theorem foldl_appends_kexts {α : Type} (host : Host F M)
    (cb : Option (List F) → α → Option (List F))
    (hnone : ∀ e, cb none e = none)
    (hstep : ∀ b e r, cb (some b) e = some r →
      ∃ finds, r = b ++ finds ∧ ∀ x ∈ finds, host.GetFileNameExtension x = "kext")
    (entries : List α) (baton r : List F) (h : entries.foldl cb (some baton) = some r) :
    ∃ finds, r = baton ++ finds ∧ ∀ x ∈ finds, host.GetFileNameExtension x = "kext" := by
  induction entries generalizing baton with
  | nil =>
    simp only [List.foldl_nil, Option.some.injEq] at h
    exact ⟨[], by simp [h], fun x hx => by cases hx⟩
  | cons e rest ih =>
    rw [List.foldl_cons] at h
    cases hc : cb (some baton) e with
    | none => rw [hc, foldl_none cb hnone] at h; cases h
    | some b' =>
      rw [hc] at h
      obtain ⟨f1, hf1, hk1⟩ := hstep baton e b' hc
      obtain ⟨f2, hf2, hk2⟩ := ih b' h
      refine ⟨f1 ++ f2, by rw [hf2, hf1, List.append_assoc], fun x hx => ?_⟩
      rcases List.mem_append.1 hx with hx | hx
      · exact hk1 x hx
      · exact hk2 x hx

/-- Whatever the callback returns is the baton followed by bundles. -/
theorem GetKextsInDirectory_appends_kexts (host : Host F M) (fuel : Nat) :
    ∀ (baton : List F) (e : FileType × F) (r : List F),
      GetKextsInDirectory host fuel (some baton) e.1 e.2 = some r →
      ∃ finds, r = baton ++ finds ∧ ∀ x ∈ finds, host.GetFileNameExtension x = "kext" := by
  induction fuel with
  | zero => intro baton e r h; cases h
  | succ n ih =>
    intro baton e r h
    rw [GetKextsInDirectory_succ] at h
    by_cases hk : is_kext_directory host e.1 e.2 = true
    · rw [if_pos hk] at h
      have hext : host.GetFileNameExtension e.2 = "kext" := by
        unfold is_kext_directory at hk
        simp only [Bool.and_eq_true, decide_eq_true_eq] at hk
        exact hk.2
      cases hp : plugin_area host e.2 with
      | none =>
        rw [hp] at h
        simp only [Option.some.injEq] at h
        refine ⟨[e.2], h.symm, fun x hx => ?_⟩
        rw [List.mem_singleton.1 hx]; exact hext
      | some path =>
        rw [hp] at h
        dsimp only at h
        unfold EnumerateDirectory at h
        obtain ⟨f, hf, hkf⟩ := foldl_appends_kexts host
          (fun b (e : FileType × F) => GetKextsInDirectory host n b e.1 e.2)
          (fun (e : FileType × F) => GetKextsInDirectory_none host n e.1 e.2) ih _ _ r h
        refine ⟨e.2 :: f, by rw [hf, List.append_assoc]; rfl, fun x hx => ?_⟩
        rcases List.mem_cons.1 hx with rfl | hx
        · exact hext
        · exact hkf x hx
    · rw [if_neg hk] at h
      simp only [Option.some.injEq] at h
      exact ⟨[], by simp [h], fun x hx => by cases hx⟩

/-- Claim C12.  The callback of bundle discovery records an enumerated entry exactly
when it is a directory whose name extension is `kext`; any other entry is
neither recorded nor searched.  For a recorded bundle the plugin area searched
is `Contents/PlugIns` when that exists as a directory, also when `PlugIns`
exists too, otherwise `PlugIns` when that exists as a directory, otherwise
none.  The nested search runs the same callback, and what it finds, bundles
only, is appended after the enclosing bundle. -/
theorem GetKextsInDirectory_records_bundles (host : Host F M) (fuel : Nat) (baton : List F)
    (file_type : FileType) (file_spec : F) :
    (GetKextsInDirectory host (fuel + 1) (some baton) file_type file_spec =
      if is_kext_directory host file_type file_spec = true then
        match plugin_area host file_spec with
        | some path =>
          EnumerateDirectory host path true false false (GetKextsInDirectory host fuel)
            (some (baton ++ [file_spec]))
        | none => some (baton ++ [file_spec])
      else some baton) ∧
    (is_kext_directory host file_type file_spec = true ↔
      file_type = FileType.eFileTypeDirectory ∧ host.GetFileNameExtension file_spec = "kext") ∧
    (∀ contents_plugins plugins : String,
      contents_plugins = snprintf PATH_MAX
        (host.GetDirectory file_spec ++ "/" ++ host.GetFilename file_spec ++ "/Contents/PlugIns") →
      plugins = snprintf PATH_MAX
        (host.GetDirectory file_spec ++ "/" ++ host.GetFilename file_spec ++ "/PlugIns") →
      (IsExistingDirectory host (host.mkFileSpec contents_plugins false) = true →
        plugin_area host file_spec = some contents_plugins) ∧
      (IsExistingDirectory host (host.mkFileSpec contents_plugins false) = false →
        IsExistingDirectory host (host.mkFileSpec plugins false) = true →
        plugin_area host file_spec = some plugins) ∧
      (IsExistingDirectory host (host.mkFileSpec contents_plugins false) = false →
        IsExistingDirectory host (host.mkFileSpec plugins false) = false →
        plugin_area host file_spec = none)) ∧
    (∀ r, GetKextsInDirectory host fuel (some baton) file_type file_spec = some r →
      (is_kext_directory host file_type file_spec = false → r = baton) ∧
      (is_kext_directory host file_type file_spec = true →
        ∃ nested, r = baton ++ file_spec :: nested ∧
          ∀ x ∈ nested, host.GetFileNameExtension x = "kext")) := by
  refine ⟨GetKextsInDirectory_succ host fuel baton file_type file_spec, ?_, ?_, ?_⟩
  · unfold is_kext_directory
    simp only [Bool.and_eq_true, decide_eq_true_eq]
  · intro contents_plugins plugins hc hp
    subst hc; subst hp
    refine ⟨fun h1 => ?_, fun h1 h2 => ?_, fun h1 h2 => ?_⟩
    · unfold plugin_area; dsimp only; rw [if_pos h1]
    · unfold plugin_area; dsimp only
      rw [if_neg (by rw [h1]; simp), if_pos h2]
    · unfold plugin_area; dsimp only
      rw [if_neg (by rw [h1]; simp), if_neg (by rw [h2]; simp)]
  · intro r h
    cases fuel with
    | zero => cases h
    | succ n =>
      rw [GetKextsInDirectory_succ] at h
      refine ⟨fun hk => ?_, fun hk => ?_⟩
      · rw [if_neg (by rw [hk]; simp)] at h
        simp only [Option.some.injEq] at h
        exact h.symm
      · rw [if_pos hk] at h
        cases hp : plugin_area host file_spec with
        | none =>
          rw [hp] at h
          simp only [Option.some.injEq] at h
          exact ⟨[], h.symm, fun x hx => by cases hx⟩
        | some path =>
          rw [hp] at h
          dsimp only at h
          unfold EnumerateDirectory at h
          obtain ⟨f, hf, hkf⟩ := foldl_appends_kexts host
            (fun b (e : FileType × F) => GetKextsInDirectory host n b e.1 e.2)
            (fun (e : FileType × F) => GetKextsInDirectory_none host n e.1 e.2)
            (GetKextsInDirectory_appends_kexts host n) _ _ r h
          exact ⟨f, by rw [hf, List.append_assoc]; rfl, hkf⟩

/-- Witness of claim C12: the bundle `A.kext` of the third concrete installation has both
plugin areas; only the bundle of `Contents/PlugIns` is found, after `A.kext`. -/
theorem GetKextsInDirectory_records_bundles_witness :
    GetKextsInDirectory Scenario.tree_host 2 (some []) FileType.eFileTypeDirectory "/SLE/A.kext" =
      some ["/SLE/A.kext", "/SLE/A.kext/Contents/PlugIns/P.kext"] ∧
    IsExistingDirectory Scenario.tree_host "/SLE/A.kext/PlugIns" = true ∧
    ∃ nested, ["/SLE/A.kext", "/SLE/A.kext/Contents/PlugIns/P.kext"] =
        [] ++ "/SLE/A.kext" :: nested ∧
      ∀ x ∈ nested, Scenario.tree_host.GetFileNameExtension x = "kext" :=
  ⟨by decide, by decide,
   ((GetKextsInDirectory_records_bundles Scenario.tree_host 2 [] FileType.eFileTypeDirectory
      "/SLE/A.kext").2.2.2 ["/SLE/A.kext", "/SLE/A.kext/Contents/PlugIns/P.kext"]
      (by decide)).2 (by decide)⟩

/-! ## Termination of bundle discovery -/

end PlatformDarwinKernel
